import Mathlib

/-!
Verification of the great_expectations dependency-graph construction and
resolution engine (validator/validation_graph.py) and of the experimental
filesystem data asset (experimental/datasources/filesystem_data_asset.py).

The resolver, graph and builder sources are not part of this checkout; only
their unit tests are.  Their definitions below are therefore modelled from
the specification (spec.md sections 3, 4, 6 and 7), with the unit tests in
tests/validator/test_validation_graph.py pinning observable behaviour such
as the provider-error message and the progress-bar disable condition.
The filesystem data asset definitions are translated directly from
filesystem_data_asset.py.
-/

/-- Modelled from the spec: identity of a Metric Descriptor, the ordered
triple (metric name, domain-parameters fingerprint, value-parameters
fingerprint).  Identity alone determines node equality. -/
structure MetricId where
  metric_name : String
  domain_id : String
  value_id : String
deriving DecidableEq, Repr

/-- Modelled from the spec: a Dependency Edge, an ordered pair
(dependent, prerequisite) where the prerequisite may be absent
(terminal edge).  Corresponds to MetricEdge in validation_graph.py. -/
structure MetricEdge where
  left : MetricId
  right : Option MetricId
deriving DecidableEq, Repr

/-- Modelled from the spec: the identity of an edge is the pair
(dependent identity, prerequisite identity or none). -/
def MetricEdge.id (e : MetricEdge) : MetricId × Option MetricId :=
  (e.left, e.right)

/-- Modelled from the spec: a Dependency Graph is a set of edges
deduplicated by identity.  Corresponds to ValidationGraph. -/
structure ValidationGraph where
  edges : List MetricEdge
deriving DecidableEq, Repr

/-- List of edge identities in insertion order (with duplicates, if the
graph was constructed from a duplicated edge list). -/
def ValidationGraph.edgeIdList (g : ValidationGraph) : List (MetricId × Option MetricId) :=
  g.edges.map MetricEdge.id

/-- Modelled from the spec: the derived set of edge identities
(ValidationGraph.edge_ids). -/
def ValidationGraph.edge_ids (g : ValidationGraph) : List (MetricId × Option MetricId) :=
  g.edgeIdList.dedup

/-- Modelled from the spec: the derived set of all distinct metric
descriptors referenced by any edge. -/
def ValidationGraph.metric_ids (g : ValidationGraph) : List MetricId :=
  (g.edges.flatMap (fun e => e.left :: e.right.toList)).dedup

/-- Modelled from the spec: ValidationGraph.add inserts an edge unless an
edge with the same identity is already present (dedup by identity;
inserting an equal edge twice is a no-op). -/
def ValidationGraph.add (g : ValidationGraph) (e : MetricEdge) : ValidationGraph :=
  if e.id ∈ g.edgeIdList then g else ⟨g.edges ++ [e]⟩

theorem ValidationGraph.add_of_mem {g : ValidationGraph} {e : MetricEdge}
    (h : e.id ∈ g.edgeIdList) : g.add e = g := by
  unfold ValidationGraph.add
  rw [if_pos h]

theorem ValidationGraph.add_of_not_mem {g : ValidationGraph} {e : MetricEdge}
    (h : ¬ e.id ∈ g.edgeIdList) : g.add e = ⟨g.edges ++ [e]⟩ := by
  unfold ValidationGraph.add
  rw [if_neg h]

theorem ValidationGraph.edgeIdList_append (es₁ es₂ : List MetricEdge) :
    (ValidationGraph.mk (es₁ ++ es₂)).edgeIdList =
      (ValidationGraph.mk es₁).edgeIdList ++ (ValidationGraph.mk es₂).edgeIdList :=
  List.map_append _ _ _

theorem ValidationGraph.mem_edgeIdList_add (g : ValidationGraph) (e : MetricEdge) :
    e.id ∈ (g.add e).edgeIdList := by
  by_cases h : e.id ∈ g.edgeIdList
  · rw [ValidationGraph.add_of_mem h]; exact h
  · rw [ValidationGraph.add_of_not_mem h, ValidationGraph.edgeIdList]
    exact List.mem_map_of_mem MetricEdge.id (List.mem_append_right _ (List.mem_singleton_self e))

theorem ValidationGraph.edgeIdList_add_subset {g : ValidationGraph} (e : MetricEdge) :
    ∀ i ∈ g.edgeIdList, i ∈ (g.add e).edgeIdList := by
  intro i hi
  by_cases h : e.id ∈ g.edgeIdList
  · rw [ValidationGraph.add_of_mem h]; exact hi
  · rw [ValidationGraph.add_of_not_mem h, ValidationGraph.edgeIdList_append]
    exact List.mem_append_left _ hi

theorem ValidationGraph.nodup_edgeIdList_add {g : ValidationGraph} (e : MetricEdge)
    (h : g.edgeIdList.Nodup) : (g.add e).edgeIdList.Nodup := by
  by_cases hm : e.id ∈ g.edgeIdList
  · rw [ValidationGraph.add_of_mem hm]; exact h
  · rw [ValidationGraph.add_of_not_mem hm, ValidationGraph.edgeIdList_append]
    refine List.Nodup.append h (List.nodup_singleton _) ?_
    intro x hx hx'
    have : x = e.id := by
      simpa [ValidationGraph.edgeIdList] using hx'
    exact hm (this ▸ hx)

theorem ValidationGraph.nodup_edgeIdList_foldl {g : ValidationGraph}
    (h : g.edgeIdList.Nodup) (es : List MetricEdge) :
    (es.foldl ValidationGraph.add g).edgeIdList.Nodup := by
  induction es generalizing g with
  | nil => simpa using h
  | cons e es ih => exact ih (ValidationGraph.nodup_edgeIdList_add e h)

/-- C5: inserting an edge whose identity equals an existing edge's identity
is a no-op on the edge set, and after every sequence of insertions into a
graph whose edge identities are duplicate-free the edge count equals the
size of the edge-identity set. -/
theorem claim5_add_dedup (g : ValidationGraph) (e : MetricEdge) (es : List MetricEdge)
    (hg : g.edgeIdList.Nodup) :
    (e.id ∈ g.edgeIdList → g.add e = g) ∧
      (es.foldl ValidationGraph.add g).edges.length =
        (es.foldl ValidationGraph.add g).edge_ids.length := by
  constructor
  · exact fun h => ValidationGraph.add_of_mem h
  · have hnd := ValidationGraph.nodup_edgeIdList_foldl hg es
    have : (es.foldl ValidationGraph.add g).edge_ids =
        (es.foldl ValidationGraph.add g).edgeIdList := List.Nodup.dedup hnd
    rw [this]
    simp [ValidationGraph.edgeIdList]

/-- Modelled from the spec: the external provider registry,
`lookup(metric name, backend identity) → declared dependency descriptors,
or absence`. -/
def Registry : Type := String → String → Option (List MetricId)

/-- Modelled from the spec and pinned by
test_populate_dependencies_with_incorrect_metric_name: the message of the
configuration error raised when the registry has no entry. -/
def no_provider_message (name be : String) : String :=
  "No provider found for " ++ name ++ " using " ++ be

mutual

/-- Modelled from the spec: the Graph Builder
(ValidationGraph.build_metric_dependency_graph).  Queries the registry for
the declared dependencies of (root name, backend identity); a metric with
no declared dependencies gets a terminal self-edge; otherwise each
dependency is expanded recursively before the root → dependency edge is
linked, short-circuiting on edges that already exist.  A missing registry
entry is a configuration error.  The fuel argument bounds recursion depth;
it decreases on every recursive call. -/
def build_metric_dependency_graph (reg : Registry) (be : String) :
    Nat → MetricId → ValidationGraph → Except String ValidationGraph
  | 0, _, _ => .error "maximum dependency depth exceeded"
  | fuel + 1, root, g =>
    match reg root.metric_name be with
    | none => .error (no_provider_message root.metric_name be)
    | some [] => .ok (g.add ⟨root, none⟩)
    | some (d :: ds) => build_dependency_edges reg be fuel root (d :: ds) g

/-- Modelled from the spec: expansion of the declared dependencies of a
root metric, one at a time.  If an edge with the same identity already
exists its subtree is not re-expanded; otherwise the dependency subtree is
expanded first and then the root → dependency edge is inserted. -/
def build_dependency_edges (reg : Registry) (be : String) :
    Nat → MetricId → List MetricId → ValidationGraph → Except String ValidationGraph
  | _, _, [], g => .ok g
  | 0, _, _ :: _, _ => .error "maximum dependency depth exceeded"
  | fuel + 1, root, d :: ds, g =>
    if (MetricEdge.mk root (some d)).id ∈ g.edgeIdList then
      build_dependency_edges reg be fuel root ds g
    else
      match build_metric_dependency_graph reg be fuel d g with
      | .error msg => .error msg
      | .ok g' => build_dependency_edges reg be fuel root ds (g'.add ⟨root, some d⟩)

end

/-- Expansion only ever inserts edges: every edge identity present before
a successful expansion is still present afterwards. -/
theorem build_mono (reg : Registry) (be : String) :
    ∀ f : Nat,
      (∀ root g g', build_metric_dependency_graph reg be f root g = .ok g' →
        ∀ i ∈ g.edgeIdList, i ∈ g'.edgeIdList) ∧
      (∀ root ds g g', build_dependency_edges reg be f root ds g = .ok g' →
        ∀ i ∈ g.edgeIdList, i ∈ g'.edgeIdList) := by
  intro f
  induction f with
  | zero =>
    constructor
    · intro root g g' h
      simp [build_metric_dependency_graph] at h
    · intro root ds g g' h
      cases ds with
      | nil =>
        simp only [build_dependency_edges, Except.ok.injEq] at h
        subst h; exact fun i hi => hi
      | cons d ds => simp [build_dependency_edges] at h
  | succ f ih =>
    constructor
    · intro root g g' h
      simp only [build_metric_dependency_graph] at h
      cases hr : reg root.metric_name be with
      | none => rw [hr] at h; cases h
      | some deps =>
        rw [hr] at h
        cases deps with
        | nil =>
          simp only [Except.ok.injEq] at h
          subst h
          exact fun i hi => ValidationGraph.edgeIdList_add_subset _ i hi
        | cons d ds => exact ih.2 root (d :: ds) g g' h
    · intro root ds g g' h
      cases ds with
      | nil =>
        simp only [build_dependency_edges, Except.ok.injEq] at h
        subst h; exact fun i hi => hi
      | cons d ds =>
        simp only [build_dependency_edges] at h
        by_cases hm : (MetricEdge.mk root (some d)).id ∈ g.edgeIdList
        · rw [if_pos hm] at h
          exact ih.2 root ds g g' h
        · rw [if_neg hm] at h
          cases hb : build_metric_dependency_graph reg be f d g with
          | error msg => rw [hb] at h; cases h
          | ok g₁ =>
            rw [hb] at h
            intro i hi
            exact ih.2 root ds _ g' h i
              (ValidationGraph.edgeIdList_add_subset _ i (ih.1 d g g₁ hb i hi))

/-- After a successful dependency expansion for a root, every root →
dependency edge identity is present in the resulting graph. -/
theorem build_dependency_edges_complete (reg : Registry) (be : String) :
    ∀ f root ds g g', build_dependency_edges reg be f root ds g = .ok g' →
      ∀ d ∈ ds, (MetricEdge.mk root (some d)).id ∈ g'.edgeIdList := by
  intro f
  induction f with
  | zero =>
    intro root ds g g' h d hd
    cases ds with
    | nil => cases hd
    | cons x xs => simp [build_dependency_edges] at h
  | succ f ih =>
    intro root ds g g' h d hd
    cases ds with
    | nil => cases hd
    | cons x xs =>
      simp only [build_dependency_edges] at h
      by_cases hm : (MetricEdge.mk root (some x)).id ∈ g.edgeIdList
      · rw [if_pos hm] at h
        rcases List.mem_cons.mp hd with rfl | hd'
        · exact (build_mono reg be f).2 root xs g g' h _ hm
        · exact ih root xs g g' h d hd'
      · rw [if_neg hm] at h
        cases hb : build_metric_dependency_graph reg be f x g with
        | error msg => rw [hb] at h; cases h
        | ok g₁ =>
          rw [hb] at h
          rcases List.mem_cons.mp hd with rfl | hd'
          · exact (build_mono reg be f).2 root xs _ g' h _
              (ValidationGraph.mem_edgeIdList_add g₁ _)
          · exact ih root xs _ g' h d hd'

/-- Dependency expansion is a no-op when every root → dependency edge is
already present and the fuel covers the dependency list. -/
theorem build_dependency_edges_skip (reg : Registry) (be : String) :
    ∀ ds f root g, (∀ d ∈ ds, (MetricEdge.mk root (some d)).id ∈ g.edgeIdList) →
      ds.length ≤ f → build_dependency_edges reg be f root ds g = .ok g := by
  intro ds
  induction ds with
  | nil =>
    intro f root g _ _
    cases f <;> simp [build_dependency_edges]
  | cons d ds ih =>
    intro f root g hmem hlen
    cases f with
    | zero => exact absurd hlen (by simp)
    | succ f =>
      simp only [build_dependency_edges]
      rw [if_pos (hmem d (List.mem_cons_self d ds))]
      exact ih f root g (fun x hx => hmem x (List.mem_cons_of_mem d hx))
        (Nat.le_of_succ_le_succ (by simpa using hlen))

/-- A successful dependency expansion had fuel at least the length of the
dependency list. -/
theorem build_dependency_edges_fuel (reg : Registry) (be : String) :
    ∀ f root ds g g', build_dependency_edges reg be f root ds g = .ok g' →
      ds.length ≤ f := by
  intro f
  induction f with
  | zero =>
    intro root ds g g' h
    cases ds with
    | nil => simp
    | cons x xs => simp [build_dependency_edges] at h
  | succ f ih =>
    intro root ds g g' h
    cases ds with
    | nil => simp
    | cons x xs =>
      simp only [build_dependency_edges] at h
      by_cases hm : (MetricEdge.mk root (some x)).id ∈ g.edgeIdList
      · rw [if_pos hm] at h
        simpa using Nat.succ_le_succ (ih root xs g g' h)
      · rw [if_neg hm] at h
        cases hb : build_metric_dependency_graph reg be f x g with
        | error msg => rw [hb] at h; cases h
        | ok g₁ =>
          rw [hb] at h
          simpa using Nat.succ_le_succ (ih root xs _ g' h)

/-- C6: expanding the same root metric a second time into a graph it was
already expanded into is a no-op: the second expansion returns the same
graph, so the edge-identity set after two expansions equals the set after
one expansion. -/
theorem claim6_expansion_idempotent (reg : Registry) (be : String) (f : Nat)
    (root : MetricId) (g g' : ValidationGraph)
    (h : build_metric_dependency_graph reg be f root g = .ok g') :
    build_metric_dependency_graph reg be f root g' = .ok g' := by
  cases f with
  | zero => simp [build_metric_dependency_graph] at h
  | succ f =>
    simp only [build_metric_dependency_graph] at h ⊢
    cases hr : reg root.metric_name be with
    | none => rw [hr] at h; cases h
    | some deps =>
      rw [hr] at h
      cases deps with
      | nil =>
        simp only [Except.ok.injEq] at h
        subst h
        rw [ValidationGraph.add_of_mem (ValidationGraph.mem_edgeIdList_add g _)]
      | cons d ds =>
        have hall := build_dependency_edges_complete reg be f root (d :: ds) g g' h
        have hlen := build_dependency_edges_fuel reg be f root (d :: ds) g g' h
        exact build_dependency_edges_skip reg be (d :: ds) f root g' hall hlen

/-- Concrete registry used in witnesses: metric a depends on metric b,
metric b is a leaf, and nothing else is registered. -/
def sampleRegistry : Registry := fun n _ =>
  if n = "a" then some [⟨"b", "d", "v"⟩]
  else if n = "b" then some []
  else none

/-- C6 witness: expanding the root metric a twice over the sample registry
leaves the graph of the first expansion unchanged. -/
theorem claim6_expansion_idempotent_witness :
    build_metric_dependency_graph sampleRegistry "engine" 3 ⟨"a", "d", "v"⟩
        ⟨[⟨⟨"b", "d", "v"⟩, none⟩, ⟨⟨"a", "d", "v"⟩, some ⟨"b", "d", "v"⟩⟩]⟩ =
      .ok ⟨[⟨⟨"b", "d", "v"⟩, none⟩, ⟨⟨"a", "d", "v"⟩, some ⟨"b", "d", "v"⟩⟩]⟩ :=
  claim6_expansion_idempotent sampleRegistry "engine" 3 ⟨"a", "d", "v"⟩ ⟨[]⟩
    ⟨[⟨⟨"b", "d", "v"⟩, none⟩, ⟨⟨"a", "d", "v"⟩, some ⟨"b", "d", "v"⟩⟩]⟩ rfl

/-- Registry with no entries at all. -/
def emptyRegistry : Registry := fun _ _ => none

/-- C7 counterexample: at the metric name and backend identity of
test_populate_dependencies_with_incorrect_metric_name, graph expansion
fails with the message "No provider found for ... using ..." (capital N,
as the unit test asserts), not the lowercase message stated in the
claim. -/
theorem claim7_counterexample :
    build_metric_dependency_graph emptyRegistry "PandasExecutionEngine" 1
        ⟨"column_values.not_a_metric", "d", "v"⟩ ⟨[]⟩ =
      .error "No provider found for column_values.not_a_metric using PandasExecutionEngine" ∧
    build_metric_dependency_graph emptyRegistry "PandasExecutionEngine" 1
        ⟨"column_values.not_a_metric", "d", "v"⟩ ⟨[]⟩ ≠
      .error "no provider found for column_values.not_a_metric using PandasExecutionEngine" := by
  have h1 : build_metric_dependency_graph emptyRegistry "PandasExecutionEngine" 1
      ⟨"column_values.not_a_metric", "d", "v"⟩ ⟨[]⟩ =
      .error "No provider found for column_values.not_a_metric using PandasExecutionEngine" := rfl
  refine ⟨h1, fun hc => ?_⟩
  rw [h1] at hc
  injection hc with h2
  exact absurd h2 (by decide)

/-- C7 (amended): for every (metric name, backend identity) pair with no
registry entry, graph expansion fails immediately with the error message
"No provider found for <metric name> using <backend identity>". -/
theorem claim7_no_provider_error (reg : Registry) (be : String) (f : Nat)
    (root : MetricId) (g : ValidationGraph)
    (h : reg root.metric_name be = none) :
    build_metric_dependency_graph reg be (f + 1) root g =
      .error ("No provider found for " ++ root.metric_name ++ " using " ++ be) := by
  simp [build_metric_dependency_graph, h, no_provider_message]

/-- C7 witness: the amended error message at the concrete metric and
backend of the unit test. -/
theorem claim7_no_provider_error_witness :
    build_metric_dependency_graph emptyRegistry "PandasExecutionEngine" 1
        ⟨"column_values.not_a_metric", "d", "v"⟩ ⟨[]⟩ =
      .error ("No provider found for " ++ "column_values.not_a_metric" ++
        " using " ++ "PandasExecutionEngine") :=
  claim7_no_provider_error emptyRegistry "PandasExecutionEngine" 0
    ⟨"column_values.not_a_metric", "d", "v"⟩ ⟨[]⟩ rfl

/-- C5 witness at a concrete graph and edge sequence: re-inserting the
already-present terminal edge on metric a is a no-op, and after inserting
a duplicate and a fresh edge the edge count equals the identity-set
size. -/
theorem claim5_add_dedup_witness :
    (ValidationGraph.mk [⟨⟨"a", "d", "v"⟩, none⟩]).add ⟨⟨"a", "d", "v"⟩, none⟩ =
        ValidationGraph.mk [⟨⟨"a", "d", "v"⟩, none⟩] ∧
    (([⟨⟨"a", "d", "v"⟩, none⟩, ⟨⟨"b", "d", "v"⟩, some ⟨"a", "d", "v"⟩⟩] :
        List MetricEdge).foldl ValidationGraph.add
          (ValidationGraph.mk [⟨⟨"a", "d", "v"⟩, none⟩])).edges.length =
      (([⟨⟨"a", "d", "v"⟩, none⟩, ⟨⟨"b", "d", "v"⟩, some ⟨"a", "d", "v"⟩⟩] :
        List MetricEdge).foldl ValidationGraph.add
          (ValidationGraph.mk [⟨⟨"a", "d", "v"⟩, none⟩])).edge_ids.length :=
  ⟨(claim5_add_dedup (ValidationGraph.mk [⟨⟨"a", "d", "v"⟩, none⟩])
      ⟨⟨"a", "d", "v"⟩, none⟩
      [⟨⟨"a", "d", "v"⟩, none⟩, ⟨⟨"b", "d", "v"⟩, some ⟨"a", "d", "v"⟩⟩]
      (by decide)).1 (by decide),
    (claim5_add_dedup (ValidationGraph.mk [⟨⟨"a", "d", "v"⟩, none⟩])
      ⟨⟨"a", "d", "v"⟩, none⟩
      [⟨⟨"a", "d", "v"⟩, none⟩, ⟨⟨"b", "d", "v"⟩, some ⟨"a", "d", "v"⟩⟩]
      (by decide)).2⟩

/-- Modelled from the spec: an exception record,
{ message, traceback or absent, raised flag }. -/
structure ExceptionInfo where
  exception_message : String
  exception_traceback : Option String
  raised_exception : Bool
deriving DecidableEq, Repr

/-- Modelled from the spec: an aborted-report entry,
{ descriptor, failure count, accumulated exception records }. -/
structure AbortedEntry where
  descriptor : MetricId
  num_failures : Nat
  exception_info : List ExceptionInfo
deriving DecidableEq, Repr

/-- Computed-values mapping: metric identity to value, in insertion
order. -/
abbrev MetricValues (V : Type) : Type := List (MetricId × V)

/-- Whether the computed-values mapping holds a value for a metric. -/
def hasVal {V : Type} (vals : MetricValues V) (m : MetricId) : Bool :=
  vals.any (fun p => decide (p.1 = m))

/-- Association-list read with a default. -/
def assocGet {α : Type} (dflt : α) : List (MetricId × α) → MetricId → α
  | [], _ => dflt
  | (k, v) :: rest, m => if k = m then v else assocGet dflt rest m

/-- Association-list write (replace or append). -/
def assocSet {α : Type} : List (MetricId × α) → MetricId → α → List (MetricId × α)
  | [], m, c => [(m, c)]
  | (k, v) :: rest, m, c =>
    if k = m then (m, c) :: rest else (k, v) :: assocSet rest m c

/-- Modelled from the spec: exception records accumulate per metric as a
set (appending a record already present is a no-op). -/
def addExceptionRecord (l : List ExceptionInfo) (e : ExceptionInfo) : List ExceptionInfo :=
  if e ∈ l then l else l ++ [e]

/-- Modelled from the spec: the ephemeral Resolution State of one
resolve call. -/
structure ResolveState (V : Type) where
  metrics : MetricValues V
  failure_counts : List (MetricId × Nat)
  exception_infos : List (MetricId × List ExceptionInfo)
  aborted : List MetricId
  aborted_metrics_info : List AbortedEntry
  progress_log : List (Nat × Nat)

/-- Modelled from the spec: a metric has its prerequisites met when every
edge (m, d) has d already present in computed-values; terminal edges
(m, none) impose nothing. -/
def prereqsMet {V : Type} (g : ValidationGraph) (vals : MetricValues V) (m : MetricId) : Bool :=
  g.edges.all fun e =>
    if e.left = m then
      match e.right with
      | none => true
      | some d => hasVal vals d
    else true

/-- Modelled from the spec: the ready partition of a wave — graph metrics
not yet computed, not permanently aborted, whose prerequisites are met. -/
def readyList {V : Type} (g : ValidationGraph) (st : ResolveState V) : List MetricId :=
  g.metric_ids.filter fun m =>
    !hasVal st.metrics m && !decide (m ∈ st.aborted) && prereqsMet g st.metrics m

/-- Modelled from the spec: the needed partition of a wave — graph metrics
not yet computed, not aborted, whose prerequisites are not met. -/
def neededList {V : Type} (g : ValidationGraph) (st : ResolveState V) : List MetricId :=
  g.metric_ids.filter fun m =>
    !hasVal st.metrics m && !decide (m ∈ st.aborted) && !prereqsMet g st.metrics m

/-- Modelled from the spec: the external computation backend; for each
submitted metric it returns a value or an exception record.  The second
argument is the metric's failure count so far, letting a backend behave
differently across retries. -/
abbrev Backend (V : Type) : Type := MetricId → Nat → Except ExceptionInfo V

/-- Modelled from the spec, resolver step 3: the ready batch is submitted
to the backend in one call, each metric carrying its current failure
count. -/
def waveResults {V : Type} (backend : Backend V) (st : ResolveState V)
    (ready : List MetricId) : List (MetricId × Except ExceptionInfo V) :=
  ready.map fun m => (m, backend m (assocGet 0 st.failure_counts m))

/-- Modelled from the spec, resolver steps 4 and 5: a success merges into
computed-values; a failure increments the metric's failure counter,
accumulates the exception record, and on reaching the retry budget marks
the metric permanently aborted and records an aborted-report entry. -/
def processResult {V : Type} (budget : Nat) (st : ResolveState V)
    (p : MetricId × Except ExceptionInfo V) : ResolveState V :=
  match p.2 with
  | .ok v => { st with metrics := st.metrics ++ [(p.1, v)] }
  | .error e =>
    let c := assocGet 0 st.failure_counts p.1 + 1
    let ex := addExceptionRecord (assocGet [] st.exception_infos p.1) e
    if budget ≤ c then
      { st with
        failure_counts := assocSet st.failure_counts p.1 c,
        exception_infos := assocSet st.exception_infos p.1 ex,
        aborted := st.aborted ++ [p.1],
        aborted_metrics_info := st.aborted_metrics_info ++ [⟨p.1, c, ex⟩] }
    else
      { st with
        failure_counts := assocSet st.failure_counts p.1 c,
        exception_infos := assocSet st.exception_infos p.1 ex }

/-- First exception record in a batch of backend results, in submission
order. -/
def firstFailure {V : Type} : List (MetricId × Except ExceptionInfo V) → Option ExceptionInfo
  | [] => none
  | (_, .error e) :: _ => some e
  | (_, .ok _) :: rest => firstFailure rest

/-- Modelled from the spec: progress is reported to the sink after each
wave as (remaining needed, total tracked metrics), unless reporting is
disabled. -/
def emitProgress {V : Type} (g : ValidationGraph) (emit : Bool) (st : ResolveState V) : ResolveState V :=
  if emit then
    { st with progress_log :=
        st.progress_log ++ [((neededList g st).length, g.metric_ids.length)] }
  else st

/-- Modelled from the spec, resolver steps 1 to 6: one wave.  Returns
none when the ready set is empty (stop), the post-wave state otherwise;
with catch-failures false the first exception record of the wave is
surfaced to the caller instead. -/
def runWave {V : Type} (g : ValidationGraph) (backend : Backend V) (budget : Nat)
    (catch_exceptions : Bool) (emit : Bool) (st : ResolveState V) :
    Except ExceptionInfo (Option (ResolveState V)) :=
  if readyList g st = [] then .ok none
  else
    match catch_exceptions, firstFailure (waveResults backend st (readyList g st)) with
    | false, some e => .error e
    | _, _ => .ok (some (emitProgress g emit
        ((waveResults backend st (readyList g st)).foldl (processResult budget) st)))

/-- Modelled from the spec: the wave loop.  The fuel argument bounds the
number of waves; the caller passes enough fuel for the loop to reach its
fixed point (a wave with an empty ready set). -/
def resolveLoop {V : Type} (g : ValidationGraph) (backend : Backend V) (budget : Nat)
    (catch_exceptions : Bool) (emit : Bool) :
    Nat → ResolveState V → Except ExceptionInfo (ResolveState V)
  | 0, st => .ok st
  | f + 1, st =>
    match runWave g backend budget catch_exceptions emit st with
    | .error e => .error e
    | .ok none => .ok st
    | .ok (some st') => resolveLoop g backend budget catch_exceptions emit f st'

/-- Retry budget default (MAX_METRIC_COMPUTATION_RETRIES). -/
def MAX_METRIC_COMPUTATION_RETRIES : Nat := 3

/-- The outcome of a resolution: the computed-values mapping, the aborted
report, and the progress-sink observables. -/
structure ResolveResult (V : Type) where
  metrics : MetricValues V
  aborted_metrics_info : List AbortedEntry
  progress_disabled : Bool
  progress_log : List (Nat × Nat)

/-- Fresh Resolution State seeded with already-known values. -/
def initState {V : Type} (seed : MetricValues V) : ResolveState V :=
  ⟨seed, [], [], [], [], []⟩

/-- Modelled from the spec: ValidationGraph.resolve_validation_graph.
Progress reporting is disabled when show_progress_bars is false or the
graph has fewer than 3 edges (the unit tests pin the strict < 3 edge-count
condition of the tqdm disable flag). -/
def resolve_validation_graph {V : Type} (g : ValidationGraph) (backend : Backend V)
    (seed : MetricValues V) (budget : Nat) (catch_exceptions : Bool)
    (show_progress_bars : Bool) : Except ExceptionInfo (ResolveResult V) :=
  let disable := !show_progress_bars || decide (g.edges.length < 3)
  let fuel := (budget + 1) * g.metric_ids.length + 1
  match resolveLoop g backend budget catch_exceptions (!disable) fuel (initState seed) with
  | .error e => .error e
  | .ok st => .ok ⟨st.metrics, st.aborted_metrics_info, disable, st.progress_log⟩

theorem hasVal_iff {V : Type} (vals : MetricValues V) (m : MetricId) :
    hasVal vals m = true ↔ ∃ v, (m, v) ∈ vals := by
  unfold hasVal
  rw [List.any_eq_true]
  constructor
  · rintro ⟨⟨k, v⟩, hmem, hk⟩
    exact ⟨v, by simpa using (of_decide_eq_true hk) ▸ hmem⟩
  · rintro ⟨v, hv⟩
    exact ⟨(m, v), hv, by simp⟩

theorem hasVal_append {V : Type} (vals : MetricValues V) (l : MetricValues V) (m : MetricId) :
    hasVal (vals ++ l) m = (hasVal vals m || hasVal l m) := by
  unfold hasVal
  exact List.any_append

theorem hasVal_append_single_of_ne {V : Type} (vals : MetricValues V) (k : MetricId)
    (v : V) (m : MetricId) (h : k ≠ m) :
    hasVal (vals ++ [(k, v)]) m = hasVal vals m := by
  rw [hasVal_append]
  have : hasVal [(k, v)] m = false := by
    unfold hasVal
    simp [h]
  rw [this, Bool.or_false]

theorem assocGet_set_self {α : Type} (dflt : α) (l : List (MetricId × α)) (m : MetricId) (c : α) :
    assocGet dflt (assocSet l m c) m = c := by
  induction l with
  | nil => simp [assocGet, assocSet]
  | cons p rest ih =>
    obtain ⟨k, v⟩ := p
    by_cases h : k = m
    · simp [assocSet, assocGet, h]
    · simp only [assocSet, assocGet, h, if_false, if_neg h]
      exact ih

theorem assocGet_set_ne {α : Type} (dflt : α) (l : List (MetricId × α)) (m m' : MetricId)
    (c : α) (h : m' ≠ m) : assocGet dflt (assocSet l m c) m' = assocGet dflt l m' := by
  have hmm : m ≠ m' := Ne.symm h
  induction l with
  | nil => simp [assocGet, assocSet, hmm]
  | cons p rest ih =>
    obtain ⟨k, v⟩ := p
    by_cases hk : k = m
    · subst hk
      simp [assocSet, assocGet, hmm]
    · simp only [assocSet, hk, if_false, assocGet]
      by_cases hk' : k = m'
      · simp [hk']
      · simp only [hk', if_false]
        exact ih

theorem addExceptionRecord_ne_nil (l : List ExceptionInfo) (e : ExceptionInfo) :
    addExceptionRecord l e ≠ [] := by
  unfold addExceptionRecord
  by_cases h : e ∈ l
  · rw [if_pos h]
    intro hl
    rw [hl] at h
    cases h
  · rw [if_neg h]
    simp

theorem mem_readyList_iff {V : Type} (g : ValidationGraph) (st : ResolveState V) (m : MetricId) :
    m ∈ readyList g st ↔
      m ∈ g.metric_ids ∧ hasVal st.metrics m = false ∧ m ∉ st.aborted ∧
        prereqsMet g st.metrics m = true := by
  unfold readyList
  rw [List.mem_filter]
  constructor
  · rintro ⟨hm, hcond⟩
    simp only [Bool.and_eq_true, Bool.not_eq_true'] at hcond
    exact ⟨hm, hcond.1.1, by simpa using hcond.1.2, hcond.2⟩
  · rintro ⟨hm, h1, h2, h3⟩
    refine ⟨hm, ?_⟩
    simp only [Bool.and_eq_true, Bool.not_eq_true']
    exact ⟨⟨h1, by simpa using h2⟩, h3⟩

theorem readyList_nodup {V : Type} (g : ValidationGraph) (st : ResolveState V) :
    (readyList g st).Nodup :=
  List.Nodup.filter _ (List.nodup_dedup _)

theorem prereqsMet_iff {V : Type} (g : ValidationGraph) (vals : MetricValues V) (m : MetricId) :
    prereqsMet g vals m = true ↔
      ∀ e ∈ g.edges, e.left = m → ∀ d, e.right = some d → hasVal vals d = true := by
  unfold prereqsMet
  rw [List.all_eq_true]
  constructor
  · intro h e he hleft d hd
    have := h e he
    rw [if_pos hleft, hd] at this
    exact this
  · intro h e he
    by_cases hleft : e.left = m
    · rw [if_pos hleft]
      cases hd : e.right with
      | none => rfl
      | some d => exact h e he hleft d hd
    · rw [if_neg hleft]

theorem mem_metric_ids_of_edge_left {g : ValidationGraph} {e : MetricEdge}
    (he : e ∈ g.edges) : e.left ∈ g.metric_ids := by
  unfold ValidationGraph.metric_ids
  rw [List.mem_dedup, List.mem_flatMap]
  exact ⟨e, he, by simp⟩

theorem mem_metric_ids_of_edge_right {g : ValidationGraph} {e : MetricEdge} {d : MetricId}
    (he : e ∈ g.edges) (hd : e.right = some d) : d ∈ g.metric_ids := by
  unfold ValidationGraph.metric_ids
  rw [List.mem_dedup, List.mem_flatMap]
  exact ⟨e, he, by simp [hd]⟩

theorem processResult_ok {V : Type} (budget : Nat) (st : ResolveState V) (m : MetricId) (v : V) :
    processResult budget st (m, Except.ok v) =
      { st with metrics := st.metrics ++ [(m, v)] } := rfl

theorem processResult_error_abort {V : Type} (budget : Nat) (st : ResolveState V)
    (m : MetricId) (e : ExceptionInfo)
    (h : budget ≤ assocGet 0 st.failure_counts m + 1) :
    processResult budget st (m, Except.error e) =
      { st with
        failure_counts := assocSet st.failure_counts m (assocGet 0 st.failure_counts m + 1),
        exception_infos := assocSet st.exception_infos m
          (addExceptionRecord (assocGet [] st.exception_infos m) e),
        aborted := st.aborted ++ [m],
        aborted_metrics_info := st.aborted_metrics_info ++
          [⟨m, assocGet 0 st.failure_counts m + 1,
            addExceptionRecord (assocGet [] st.exception_infos m) e⟩] } := by
  simp only [processResult]
  rw [if_pos h]

theorem processResult_error_retry {V : Type} (budget : Nat) (st : ResolveState V)
    (m : MetricId) (e : ExceptionInfo)
    (h : ¬ budget ≤ assocGet 0 st.failure_counts m + 1) :
    processResult budget st (m, Except.error e) =
      { st with
        failure_counts := assocSet st.failure_counts m (assocGet 0 st.failure_counts m + 1),
        exception_infos := assocSet st.exception_infos m
          (addExceptionRecord (assocGet [] st.exception_infos m) e) } := by
  simp only [processResult]
  rw [if_neg h]

theorem processResult_hasVal_mono {V : Type} (budget : Nat) (st : ResolveState V)
    (p : MetricId × Except ExceptionInfo V) (x : MetricId)
    (h : hasVal st.metrics x = true) :
    hasVal (processResult budget st p).metrics x = true := by
  obtain ⟨m, r⟩ := p
  cases r with
  | ok v =>
    rw [processResult_ok, hasVal_append]
    simp [h]
  | error e =>
    by_cases hab : budget ≤ assocGet 0 st.failure_counts m + 1
    · rw [processResult_error_abort budget st m e hab]
      exact h
    · rw [processResult_error_retry budget st m e hab]
      exact h

theorem processResult_hasVal_of_ne {V : Type} (budget : Nat) (st : ResolveState V)
    (p : MetricId × Except ExceptionInfo V) (x : MetricId) (h : x ≠ p.1) :
    hasVal (processResult budget st p).metrics x = hasVal st.metrics x := by
  obtain ⟨m, r⟩ := p
  cases r with
  | ok v =>
    rw [processResult_ok]
    exact hasVal_append_single_of_ne st.metrics m v x (fun hx => h hx.symm)
  | error e =>
    by_cases hab : budget ≤ assocGet 0 st.failure_counts m + 1
    · rw [processResult_error_abort budget st m e hab]
    · rw [processResult_error_retry budget st m e hab]

theorem processResult_aborted_mono {V : Type} (budget : Nat) (st : ResolveState V)
    (p : MetricId × Except ExceptionInfo V) (x : MetricId) (h : x ∈ st.aborted) :
    x ∈ (processResult budget st p).aborted := by
  obtain ⟨m, r⟩ := p
  cases r with
  | ok v => rw [processResult_ok]; exact h
  | error e =>
    by_cases hab : budget ≤ assocGet 0 st.failure_counts m + 1
    · rw [processResult_error_abort budget st m e hab]
      exact List.mem_append_left _ h
    · rw [processResult_error_retry budget st m e hab]
      exact h

theorem processResult_mem_aborted {V : Type} (budget : Nat) (st : ResolveState V)
    (p : MetricId × Except ExceptionInfo V) (x : MetricId)
    (h : x ∈ (processResult budget st p).aborted) : x ∈ st.aborted ∨ x = p.1 := by
  obtain ⟨m, r⟩ := p
  cases r with
  | ok v => rw [processResult_ok] at h; exact Or.inl h
  | error e =>
    by_cases hab : budget ≤ assocGet 0 st.failure_counts m + 1
    · rw [processResult_error_abort budget st m e hab] at h
      rcases List.mem_append.mp h with h' | h'
      · exact Or.inl h'
      · exact Or.inr (by simpa using h')
    · rw [processResult_error_retry budget st m e hab] at h
      exact Or.inl h

theorem processResult_count_of_ne {V : Type} (budget : Nat) (st : ResolveState V)
    (p : MetricId × Except ExceptionInfo V) (x : MetricId) (h : x ≠ p.1) :
    assocGet 0 (processResult budget st p).failure_counts x =
      assocGet 0 st.failure_counts x := by
  obtain ⟨m, r⟩ := p
  cases r with
  | ok v => rw [processResult_ok]
  | error e =>
    by_cases hab : budget ≤ assocGet 0 st.failure_counts m + 1
    · rw [processResult_error_abort budget st m e hab]
      exact assocGet_set_ne 0 st.failure_counts m x _ h
    · rw [processResult_error_retry budget st m e hab]
      exact assocGet_set_ne 0 st.failure_counts m x _ h

theorem processResult_progress_log {V : Type} (budget : Nat) (st : ResolveState V)
    (p : MetricId × Except ExceptionInfo V) :
    (processResult budget st p).progress_log = st.progress_log := by
  obtain ⟨m, r⟩ := p
  cases r with
  | ok v => rw [processResult_ok]
  | error e =>
    by_cases hab : budget ≤ assocGet 0 st.failure_counts m + 1
    · rw [processResult_error_abort budget st m e hab]
    · rw [processResult_error_retry budget st m e hab]

/-- Remaining work for one metric: zero once computed or aborted,
otherwise the retry budget plus one minus its failure count. -/
def contrib {V : Type} (budget : Nat) (st : ResolveState V) (m : MetricId) : Nat :=
  if hasVal st.metrics m || decide (m ∈ st.aborted) then 0
  else budget + 1 - assocGet 0 st.failure_counts m

/-- Total remaining work of a resolution state; it strictly decreases on
every wave that submits at least one metric. -/
def stateMeasure {V : Type} (g : ValidationGraph) (budget : Nat) (st : ResolveState V) : Nat :=
  (g.metric_ids.map (contrib budget st)).sum

theorem sum_map_le_sum_map {α : Type} (l : List α) (f f' : α → Nat)
    (h : ∀ x ∈ l, f x ≤ f' x) : (l.map f).sum ≤ (l.map f').sum := by
  induction l with
  | nil => simp
  | cons a l ih =>
    simp only [List.map_cons, List.sum_cons]
    exact Nat.add_le_add (h a (List.mem_cons_self a l))
      (ih fun x hx => h x (List.mem_cons_of_mem a hx))

theorem sum_map_lt_sum_map {α : Type} (l : List α) (f f' : α → Nat)
    (h : ∀ x ∈ l, f x ≤ f' x) (x₀ : α) (hx₀ : x₀ ∈ l) (hlt : f x₀ < f' x₀) :
    (l.map f).sum < (l.map f').sum := by
  induction l with
  | nil => cases hx₀
  | cons a l ih =>
    simp only [List.map_cons, List.sum_cons]
    rcases List.mem_cons.mp hx₀ with rfl | hx
    · exact add_lt_add_of_lt_of_le hlt
        (sum_map_le_sum_map l f f' fun x hx => h x (List.mem_cons_of_mem _ hx))
    · exact add_lt_add_of_le_of_lt (h a (List.mem_cons_self a l))
        (ih (fun x hx' => h x (List.mem_cons_of_mem a hx')) hx)

theorem sum_map_le_mul {α : Type} (l : List α) (f : α → Nat) (c : Nat)
    (h : ∀ x ∈ l, f x ≤ c) : (l.map f).sum ≤ l.length * c := by
  induction l with
  | nil => simp
  | cons a l ih =>
    simp only [List.map_cons, List.sum_cons, List.length_cons, Nat.succ_mul]
    have h1 := h a (List.mem_cons_self a l)
    have h2 := ih fun x hx => h x (List.mem_cons_of_mem a hx)
    omega

theorem contrib_processResult_le {V : Type} (budget : Nat) (st : ResolveState V)
    (p : MetricId × Except ExceptionInfo V) (x : MetricId) :
    contrib budget (processResult budget st p) x ≤ contrib budget st x := by
  by_cases hx : x = p.1
  · subst hx
    obtain ⟨m, r⟩ := p
    cases r with
    | ok v =>
      have : hasVal (processResult budget st (m, Except.ok v)).metrics m = true := by
        rw [processResult_ok, hasVal_append]
        have : hasVal [(m, v)] m = true := by
          rw [hasVal_iff]
          exact ⟨v, by simp⟩
        simp [this]
      unfold contrib
      rw [this]
      simp
    | error e =>
      by_cases hab : budget ≤ assocGet 0 st.failure_counts m + 1
      · have : m ∈ (processResult budget st (m, Except.error e)).aborted := by
          rw [processResult_error_abort budget st m e hab]
          simp
        unfold contrib
        rw [decide_eq_true this]
        simp
      · rw [processResult_error_retry budget st m e hab]
        unfold contrib
        simp only [assocGet_set_self]
        split
        · simp
        · omega
  · unfold contrib
    rw [processResult_hasVal_of_ne budget st p x hx,
      processResult_count_of_ne budget st p x hx]
    have habs : decide (x ∈ (processResult budget st p).aborted) = decide (x ∈ st.aborted) := by
      apply decide_eq_decide.mpr
      constructor
      · intro hmem
        rcases processResult_mem_aborted budget st p x hmem with h' | h'
        · exact h'
        · exact absurd h' hx
      · exact processResult_aborted_mono budget st p x
    rw [habs]

theorem contrib_processResult_lt {V : Type} (budget : Nat) (st : ResolveState V)
    (p : MetricId × Except ExceptionInfo V)
    (hnv : hasVal st.metrics p.1 = false) (hna : p.1 ∉ st.aborted)
    (hcnt : assocGet 0 st.failure_counts p.1 ≤ budget) :
    contrib budget (processResult budget st p) p.1 < contrib budget st p.1 := by
  have hpos : contrib budget st p.1 = budget + 1 - assocGet 0 st.failure_counts p.1 := by
    unfold contrib
    rw [hnv, decide_eq_false hna]
    simp
  obtain ⟨m, r⟩ := p
  simp only at hpos hnv hna hcnt ⊢
  cases r with
  | ok v =>
    have hv : hasVal (processResult budget st (m, Except.ok v)).metrics m = true := by
      rw [processResult_ok, hasVal_append]
      have : hasVal [(m, v)] m = true := by
        rw [hasVal_iff]
        exact ⟨v, by simp⟩
      simp [this]
    have : contrib budget (processResult budget st (m, Except.ok v)) m = 0 := by
      unfold contrib
      rw [hv]
      simp
    rw [this, hpos]
    omega
  | error e =>
    by_cases hab : budget ≤ assocGet 0 st.failure_counts m + 1
    · have hm : m ∈ (processResult budget st (m, Except.error e)).aborted := by
        rw [processResult_error_abort budget st m e hab]
        simp
      have : contrib budget (processResult budget st (m, Except.error e)) m = 0 := by
        unfold contrib
        rw [decide_eq_true hm]
        simp
      rw [this, hpos]
      omega
    · rw [processResult_error_retry budget st m e hab]
      unfold contrib
      simp only [assocGet_set_self]
      have hcond : (hasVal st.metrics m || decide (m ∈ st.aborted)) = false := by
        rw [hnv, decide_eq_false hna]
        rfl
      rw [hcond]
      simp only [Bool.false_eq_true, if_false]
      omega

theorem stateMeasure_processResult_le {V : Type} (g : ValidationGraph) (budget : Nat)
    (st : ResolveState V) (p : MetricId × Except ExceptionInfo V) :
    stateMeasure g budget (processResult budget st p) ≤ stateMeasure g budget st :=
  sum_map_le_sum_map _ _ _ (fun x _ => contrib_processResult_le budget st p x)

theorem stateMeasure_fold_le {V : Type} (g : ValidationGraph) (budget : Nat) :
    ∀ (rs : List (MetricId × Except ExceptionInfo V)) (st : ResolveState V),
      stateMeasure g budget (rs.foldl (processResult budget) st) ≤ stateMeasure g budget st := by
  intro rs
  induction rs with
  | nil => intro st; exact Nat.le_refl _
  | cons p rs ih =>
    intro st
    calc stateMeasure g budget ((p :: rs).foldl (processResult budget) st)
        = stateMeasure g budget (rs.foldl (processResult budget) (processResult budget st p)) := rfl
      _ ≤ stateMeasure g budget (processResult budget st p) := ih _
      _ ≤ stateMeasure g budget st := stateMeasure_processResult_le g budget st p

theorem stateMeasure_fold_lt {V : Type} (g : ValidationGraph) (budget : Nat)
    (st : ResolveState V) (p : MetricId × Except ExceptionInfo V)
    (rs : List (MetricId × Except ExceptionInfo V))
    (hm : p.1 ∈ g.metric_ids) (hnv : hasVal st.metrics p.1 = false)
    (hna : p.1 ∉ st.aborted) (hcnt : assocGet 0 st.failure_counts p.1 ≤ budget) :
    stateMeasure g budget ((p :: rs).foldl (processResult budget) st) <
      stateMeasure g budget st := by
  calc stateMeasure g budget ((p :: rs).foldl (processResult budget) st)
      = stateMeasure g budget (rs.foldl (processResult budget) (processResult budget st p)) := rfl
    _ ≤ stateMeasure g budget (processResult budget st p) := stateMeasure_fold_le g budget rs _
    _ < stateMeasure g budget st :=
        sum_map_lt_sum_map _ _ _ (fun x _ => contrib_processResult_le budget st p x) p.1 hm
          (contrib_processResult_lt budget st p hnv hna hcnt)

theorem counts_le_processResult {V : Type} (budget : Nat) (st : ResolveState V)
    (p : MetricId × Except ExceptionInfo V)
    (h : ∀ x, x ∉ st.aborted → assocGet 0 st.failure_counts x ≤ budget) :
    ∀ x, x ∉ (processResult budget st p).aborted →
      assocGet 0 (processResult budget st p).failure_counts x ≤ budget := by
  intro x hx
  have hx' : x ∉ st.aborted := fun hmem => hx (processResult_aborted_mono budget st p x hmem)
  obtain ⟨m, r⟩ := p
  by_cases hxm : x = m
  · cases r with
    | ok v =>
      rw [processResult_ok]
      exact h x hx'
    | error e =>
      by_cases hab : budget ≤ assocGet 0 st.failure_counts m + 1
      · exfalso
        apply hx
        rw [processResult_error_abort budget st m e hab]
        simp [hxm]
      · rw [processResult_error_retry budget st m e hab]
        rw [hxm, assocGet_set_self]
        omega
  · rw [processResult_count_of_ne budget st (m, r) x hxm]
    exact h x hx'

theorem counts_le_fold {V : Type} (budget : Nat) :
    ∀ (rs : List (MetricId × Except ExceptionInfo V)) (st : ResolveState V),
      (∀ x, x ∉ st.aborted → assocGet 0 st.failure_counts x ≤ budget) →
      ∀ x, x ∉ (rs.foldl (processResult budget) st).aborted →
        assocGet 0 (rs.foldl (processResult budget) st).failure_counts x ≤ budget := by
  intro rs
  induction rs with
  | nil => intro st h; exact h
  | cons p rs ih =>
    intro st h
    exact ih (processResult budget st p) (counts_le_processResult budget st p h)

theorem emitProgress_metrics {V : Type} (g : ValidationGraph) (em : Bool) (st : ResolveState V) :
    (emitProgress g em st).metrics = st.metrics := by
  unfold emitProgress
  split <;> rfl

theorem emitProgress_failure_counts {V : Type} (g : ValidationGraph) (em : Bool)
    (st : ResolveState V) : (emitProgress g em st).failure_counts = st.failure_counts := by
  unfold emitProgress
  split <;> rfl

theorem emitProgress_aborted {V : Type} (g : ValidationGraph) (em : Bool)
    (st : ResolveState V) : (emitProgress g em st).aborted = st.aborted := by
  unfold emitProgress
  split <;> rfl

theorem emitProgress_aborted_metrics_info {V : Type} (g : ValidationGraph) (em : Bool)
    (st : ResolveState V) :
    (emitProgress g em st).aborted_metrics_info = st.aborted_metrics_info := by
  unfold emitProgress
  split <;> rfl

theorem emitProgress_exception_infos {V : Type} (g : ValidationGraph) (em : Bool)
    (st : ResolveState V) :
    (emitProgress g em st).exception_infos = st.exception_infos := by
  unfold emitProgress
  split <;> rfl

theorem stateMeasure_emitProgress {V : Type} (g g' : ValidationGraph) (budget : Nat)
    (em : Bool) (st : ResolveState V) :
    stateMeasure g budget (emitProgress g' em st) = stateMeasure g budget st := by
  unfold emitProgress
  split <;> rfl

theorem readyList_emitProgress {V : Type} (g g' : ValidationGraph) (em : Bool)
    (st : ResolveState V) : readyList g (emitProgress g' em st) = readyList g st := by
  unfold emitProgress
  split <;> rfl

theorem runWave_ok_none {V : Type} {g : ValidationGraph} {backend : Backend V}
    {budget : Nat} {catchx emit : Bool} {st : ResolveState V}
    (h : runWave g backend budget catchx emit st = .ok none) :
    readyList g st = [] := by
  unfold runWave at h
  by_cases hr : readyList g st = []
  · exact hr
  · exfalso
    rw [if_neg hr] at h
    cases catchx with
    | false =>
      cases hf : firstFailure (waveResults backend st (readyList g st)) with
      | none => rw [hf] at h; cases h
      | some e => rw [hf] at h; cases h
    | true => cases h

theorem runWave_ok_some {V : Type} {g : ValidationGraph} {backend : Backend V}
    {budget : Nat} {catchx emit : Bool} {st st' : ResolveState V}
    (h : runWave g backend budget catchx emit st = .ok (some st')) :
    readyList g st ≠ [] ∧
      st' = emitProgress g emit
        ((waveResults backend st (readyList g st)).foldl (processResult budget) st) := by
  unfold runWave at h
  by_cases hr : readyList g st = []
  · rw [if_pos hr] at h; cases h
  · rw [if_neg hr] at h
    refine ⟨hr, ?_⟩
    cases catchx with
    | false =>
      cases hf : firstFailure (waveResults backend st (readyList g st)) with
      | none =>
        rw [hf] at h
        exact (Option.some.inj (Except.ok.inj h)).symm
      | some e => rw [hf] at h; cases h
    | true => exact (Option.some.inj (Except.ok.inj h)).symm

theorem runWave_true_ok {V : Type} (g : ValidationGraph) (backend : Backend V)
    (budget : Nat) (emit : Bool) (st : ResolveState V) :
    ∀ e, runWave g backend budget true emit st ≠ .error e := by
  intro e h
  unfold runWave at h
  by_cases hr : readyList g st = []
  · rw [if_pos hr] at h; cases h
  · rw [if_neg hr] at h; cases h

theorem resolveLoop_ready_empty {V : Type} (g : ValidationGraph) (backend : Backend V)
    (budget : Nat) (catchx emit : Bool) :
    ∀ (f : Nat) (st st' : ResolveState V),
      (∀ x, x ∉ st.aborted → assocGet 0 st.failure_counts x ≤ budget) →
      stateMeasure g budget st < f →
      resolveLoop g backend budget catchx emit f st = .ok st' →
      readyList g st' = [] := by
  intro f
  induction f with
  | zero => intro st st' _ hm _; exact absurd hm (Nat.not_lt_zero _)
  | succ f ih =>
    intro st st' hc hm hr
    simp only [resolveLoop] at hr
    cases hw : runWave g backend budget catchx emit st with
    | error e => rw [hw] at hr; cases hr
    | ok o =>
      cases o with
      | none =>
        rw [hw] at hr
        have : st = st' := Except.ok.inj hr
        exact this ▸ runWave_ok_none hw
      | some st₁ =>
        rw [hw] at hr
        obtain ⟨hne, hst₁⟩ := runWave_ok_some hw
        obtain ⟨r₀, rest, hready⟩ := List.exists_cons_of_ne_nil hne
        have hr₀ : r₀ ∈ readyList g st := by rw [hready]; exact List.mem_cons_self _ _
        obtain ⟨hr₀m, hr₀v, hr₀a, _⟩ := (mem_readyList_iff g st r₀).mp hr₀
        have hlt : stateMeasure g budget st₁ < stateMeasure g budget st := by
          rw [hst₁, stateMeasure_emitProgress]
          have : waveResults backend st (readyList g st) =
              (r₀, backend r₀ (assocGet 0 st.failure_counts r₀)) ::
                waveResults backend st rest := by
            rw [hready]; rfl
          rw [this]
          exact stateMeasure_fold_lt g budget st _ _ hr₀m hr₀v hr₀a (hc r₀ hr₀a)
        have hc₁ : ∀ x, x ∉ st₁.aborted → assocGet 0 st₁.failure_counts x ≤ budget := by
          intro x hx
          rw [hst₁, emitProgress_failure_counts]
          rw [hst₁, emitProgress_aborted] at hx
          exact counts_le_fold budget _ st hc x hx
        exact ih st₁ st' hc₁ (by omega) hr

theorem hasVal_singleton {V : Type} (k : MetricId) (v : V) (x : MetricId) :
    hasVal [(k, v)] x = decide (k = x) := by
  simp [hasVal]

theorem nodup_append_singleton {α : Type} {l : List α} {a : α}
    (h : l.Nodup) (ha : a ∉ l) : (l ++ [a]).Nodup := by
  refine List.Nodup.append h (List.nodup_singleton _) ?_
  intro x hx hx'
  rw [List.mem_singleton] at hx'
  exact ha (hx' ▸ hx)

theorem mem_waveResults {V : Type} {backend : Backend V} {st : ResolveState V}
    {ready : List MetricId} {p : MetricId × Except ExceptionInfo V}
    (hp : p ∈ waveResults backend st ready) :
    p.1 ∈ ready ∧ p.2 = backend p.1 (assocGet 0 st.failure_counts p.1) := by
  unfold waveResults at hp
  obtain ⟨m, hm, rfl⟩ := List.mem_map.mp hp
  exact ⟨hm, rfl⟩

theorem waveResults_map_fst {V : Type} (backend : Backend V) (st : ResolveState V)
    (ready : List MetricId) : (waveResults backend st ready).map Prod.fst = ready := by
  unfold waveResults
  rw [List.map_map]
  exact List.map_id ready

/-- Invariants of the Resolution State maintained by every wave of the
resolver: failure counters of unaborted metrics stay below the budget,
the aborted report lists exactly the aborted metrics in order and without
duplicates, each report entry carries failure count equal to the budget
and a non-empty record set, aborted metrics are never computed, computed
metrics other than seeded ones had all their prerequisites computed, and
aborted metrics had all their prerequisites computed when submitted. -/
structure ResolveInv {V : Type} (g : ValidationGraph) (budget : Nat) (seed : MetricValues V)
    (st : ResolveState V) : Prop where
  counts_lt : 1 ≤ budget → ∀ x, x ∉ st.aborted → assocGet 0 st.failure_counts x < budget
  report_desc : st.aborted_metrics_info.map AbortedEntry.descriptor = st.aborted
  aborted_nodup : st.aborted.Nodup
  report_fields : 1 ≤ budget → ∀ en ∈ st.aborted_metrics_info,
    en.num_failures = budget ∧ en.exception_info ≠ []
  aborted_not_computed : ∀ x ∈ st.aborted, hasVal st.metrics x = false
  computed_prereqs : ∀ e ∈ g.edges, hasVal st.metrics e.left = true →
    hasVal seed e.left = true ∨ ∀ d, e.right = some d → hasVal st.metrics d = true
  aborted_prereqs : ∀ x ∈ st.aborted, ∀ e ∈ g.edges, e.left = x →
    ∀ d, e.right = some d → hasVal st.metrics d = true

theorem initState_inv {V : Type} (g : ValidationGraph) (budget : Nat)
    (seed : MetricValues V) : ResolveInv g budget seed (initState seed) := by
  refine ⟨?_, rfl, List.nodup_nil, ?_, ?_, ?_, ?_⟩
  · intro hb x _
    simpa [assocGet] using hb
  · intro _ en hen
    cases hen
  · intro x hx
    cases hx
  · intro e _ h
    exact Or.inl h
  · intro x hx
    cases hx

theorem processResult_preserves_inv {V : Type} (g : ValidationGraph) (budget : Nat)
    (seed : MetricValues V) (st₀ st : ResolveState V)
    (p : MetricId × Except ExceptionInfo V)
    (hready : p.1 ∈ readyList g st₀)
    (hfreshv : hasVal st.metrics p.1 = false) (hfresha : p.1 ∉ st.aborted)
    (hmono : ∀ x, hasVal st₀.metrics x = true → hasVal st.metrics x = true)
    (hinv : ResolveInv g budget seed st) :
    ResolveInv g budget seed (processResult budget st p) := by
  obtain ⟨m, r⟩ := p
  simp only at hfreshv hfresha
  obtain ⟨hmids, hmv0, hma0, hmpm⟩ := (mem_readyList_iff g st₀ m).mp hready
  have hpm : ∀ e ∈ g.edges, e.left = m → ∀ d, e.right = some d →
      hasVal st.metrics d = true := by
    intro e he hl d hd
    exact hmono d ((prereqsMet_iff g st₀.metrics m).mp hmpm e he hl d hd)
  cases r with
  | ok v =>
    rw [processResult_ok]
    have hval : ∀ x, hasVal (st.metrics ++ [(m, v)]) x = true ↔
        (hasVal st.metrics x = true ∨ x = m) := by
      intro x
      rw [hasVal_append, hasVal_singleton, Bool.or_eq_true]
      constructor
      · rintro (h | h)
        · exact Or.inl h
        · exact Or.inr (of_decide_eq_true h).symm
      · rintro (h | rfl)
        · exact Or.inl h
        · exact Or.inr (by simp)
    refine ⟨hinv.counts_lt, hinv.report_desc, hinv.aborted_nodup, hinv.report_fields,
      ?_, ?_, ?_⟩
    · intro x hx
      have hxm : x ≠ m := fun hh => hfresha (hh ▸ hx)
      rw [hasVal_append_single_of_ne st.metrics m v x (fun hh => hxm hh.symm)]
      exact hinv.aborted_not_computed x hx
    · intro e he hl
      rcases (hval e.left).mp hl with hold | hnew
      · rcases hinv.computed_prereqs e he hold with hseed | hall
        · exact Or.inl hseed
        · refine Or.inr ?_
          intro d hd
          exact (hval d).mpr (Or.inl (hall d hd))
      · refine Or.inr ?_
        intro d hd
        exact (hval d).mpr (Or.inl (hpm e he hnew d hd))
    · intro x hx e he hl d hd
      rw [hasVal_append, Bool.or_eq_true]
      exact Or.inl (hinv.aborted_prereqs x hx e he hl d hd)
  | error e =>
    by_cases hab : budget ≤ assocGet 0 st.failure_counts m + 1
    · rw [processResult_error_abort budget st m e hab]
      refine ⟨?_, ?_, ?_, ?_, ?_, ?_, ?_⟩
      · intro hb x hx
        have hxa : x ∉ st.aborted := fun hh => hx (List.mem_append_left _ hh)
        have hxm : x ≠ m := fun hh => hx (List.mem_append_right _ (by simp [hh]))
        rw [assocGet_set_ne 0 st.failure_counts m x _ hxm]
        exact hinv.counts_lt hb x hxa
      · rw [List.map_append, hinv.report_desc]
        rfl
      · exact nodup_append_singleton hinv.aborted_nodup hfresha
      · intro hb en hen
        rcases List.mem_append.mp hen with hold | hnew
        · exact hinv.report_fields hb en hold
        · rw [List.mem_singleton] at hnew
          subst hnew
          constructor
          · have := hinv.counts_lt hb m hfresha
            simp only
            omega
          · exact addExceptionRecord_ne_nil _ _
      · intro x hx
        rcases List.mem_append.mp hx with hold | hnew
        · exact hinv.aborted_not_computed x hold
        · rw [List.mem_singleton] at hnew
          subst hnew
          exact hfreshv
      · exact hinv.computed_prereqs
      · intro x hx e' he' hl d hd
        rcases List.mem_append.mp hx with hold | hnew
        · exact hinv.aborted_prereqs x hold e' he' hl d hd
        · rw [List.mem_singleton] at hnew
          subst hnew
          exact hpm e' he' hl d hd
    · rw [processResult_error_retry budget st m e hab]
      refine ⟨?_, hinv.report_desc, hinv.aborted_nodup, hinv.report_fields,
        hinv.aborted_not_computed, hinv.computed_prereqs, hinv.aborted_prereqs⟩
      intro hb x hx
      by_cases hxm : x = m
      · subst hxm
        rw [assocGet_set_self]
        omega
      · rw [assocGet_set_ne 0 st.failure_counts m x _ hxm]
        exact hinv.counts_lt hb x hx

theorem fold_preserves_inv {V : Type} (g : ValidationGraph) (budget : Nat)
    (seed : MetricValues V) (st₀ : ResolveState V) :
    ∀ (rs : List (MetricId × Except ExceptionInfo V)) (st : ResolveState V),
      (∀ p ∈ rs, p.1 ∈ readyList g st₀) →
      (∀ p ∈ rs, hasVal st.metrics p.1 = false ∧ p.1 ∉ st.aborted) →
      (∀ x, hasVal st₀.metrics x = true → hasVal st.metrics x = true) →
      (rs.map Prod.fst).Nodup →
      ResolveInv g budget seed st →
      ResolveInv g budget seed (rs.foldl (processResult budget) st) := by
  intro rs
  induction rs with
  | nil => intro st _ _ _ _ hinv; exact hinv
  | cons p rs ih =>
    intro st hready hfresh hmono hnd hinv
    have hp := hfresh p (List.mem_cons_self p rs)
    have hnd' := List.nodup_cons.mp hnd
    refine ih (processResult budget st p) ?_ ?_ ?_ hnd'.2 ?_
    · intro q hq
      exact hready q (List.mem_cons_of_mem p hq)
    · intro q hq
      have hqp : q.1 ≠ p.1 := by
        intro hh
        exact hnd'.1 (hh ▸ List.mem_map_of_mem Prod.fst hq)
      have hqf := hfresh q (List.mem_cons_of_mem p hq)
      constructor
      · rw [processResult_hasVal_of_ne budget st p q.1 hqp]
        exact hqf.1
      · intro hmem
        rcases processResult_mem_aborted budget st p q.1 hmem with h' | h'
        · exact hqf.2 h'
        · exact hqp h'
    · intro x hx
      exact processResult_hasVal_mono budget st p x (hmono x hx)
    · exact processResult_preserves_inv g budget seed st₀ st p
        (hready p (List.mem_cons_self p rs)) hp.1 hp.2 hmono hinv

theorem emitProgress_preserves_inv {V : Type} {g g' : ValidationGraph} {budget : Nat}
    {seed : MetricValues V} {em : Bool} {st : ResolveState V}
    (hinv : ResolveInv g budget seed st) :
    ResolveInv g budget seed (emitProgress g' em st) := by
  unfold emitProgress
  split
  · exact ⟨hinv.counts_lt, hinv.report_desc, hinv.aborted_nodup, hinv.report_fields,
      hinv.aborted_not_computed, hinv.computed_prereqs, hinv.aborted_prereqs⟩
  · exact hinv

theorem runWave_preserves_inv {V : Type} {g : ValidationGraph} {backend : Backend V}
    {budget : Nat} {catchx emit : Bool} {seed : MetricValues V} {st st' : ResolveState V}
    (h : runWave g backend budget catchx emit st = .ok (some st'))
    (hinv : ResolveInv g budget seed st) : ResolveInv g budget seed st' := by
  obtain ⟨hne, hst'⟩ := runWave_ok_some h
  rw [hst']
  refine emitProgress_preserves_inv (fold_preserves_inv g budget seed st _ st ?_ ?_ ?_ ?_ hinv)
  · intro p hp
    exact (mem_waveResults hp).1
  · intro p hp
    have hr := (mem_readyList_iff g st p.1).mp (mem_waveResults hp).1
    exact ⟨hr.2.1, hr.2.2.1⟩
  · intro x hx
    exact hx
  · rw [waveResults_map_fst]
    exact readyList_nodup g st

theorem resolveLoop_preserves_inv {V : Type} (g : ValidationGraph) (backend : Backend V)
    (budget : Nat) (catchx emit : Bool) (seed : MetricValues V) :
    ∀ (f : Nat) (st st' : ResolveState V),
      resolveLoop g backend budget catchx emit f st = .ok st' →
      ResolveInv g budget seed st → ResolveInv g budget seed st' := by
  intro f
  induction f with
  | zero =>
    intro st st' h hinv
    exact (Except.ok.inj h) ▸ hinv
  | succ f ih =>
    intro st st' h hinv
    simp only [resolveLoop] at h
    cases hw : runWave g backend budget catchx emit st with
    | error e => rw [hw] at h; cases h
    | ok o =>
      cases o with
      | none =>
        rw [hw] at h
        exact (Except.ok.inj h) ▸ hinv
      | some st₁ =>
        rw [hw] at h
        exact ih st₁ st' h (runWave_preserves_inv hw hinv)

theorem fold_not_computed {V : Type} (budget : Nat) (backend : Backend V) (m : MetricId)
    (hfail : ∀ k v, backend m k ≠ Except.ok v) :
    ∀ (rs : List (MetricId × Except ExceptionInfo V)) (st : ResolveState V),
      (∀ p ∈ rs, ∃ k, p.2 = backend p.1 k) →
      hasVal st.metrics m = false →
      hasVal ((rs.foldl (processResult budget) st)).metrics m = false := by
  intro rs
  induction rs with
  | nil => intro st _ h; exact h
  | cons p rs ih =>
    intro st hps h
    refine ih (processResult budget st p) ?_ ?_
    · intro q hq
      exact hps q (List.mem_cons_of_mem p hq)
    · by_cases hpm : p.1 = m
      · obtain ⟨k, hk⟩ := hps p (List.mem_cons_self p rs)
        obtain ⟨q, r⟩ := p
        simp only at hpm hk
        subst hpm
        cases r with
        | ok v => exact absurd hk.symm (hfail k v)
        | error e =>
          by_cases hab : budget ≤ assocGet 0 st.failure_counts q + 1
          · rw [processResult_error_abort budget st q e hab]
            exact h
          · rw [processResult_error_retry budget st q e hab]
            exact h
      · rw [processResult_hasVal_of_ne budget st p m (fun hh => hpm hh.symm)]
        exact h

theorem resolveLoop_not_computed {V : Type} (g : ValidationGraph) (backend : Backend V)
    (budget : Nat) (catchx emit : Bool) (m : MetricId)
    (hfail : ∀ k v, backend m k ≠ Except.ok v) :
    ∀ (f : Nat) (st st' : ResolveState V),
      resolveLoop g backend budget catchx emit f st = .ok st' →
      hasVal st.metrics m = false → hasVal st'.metrics m = false := by
  intro f
  induction f with
  | zero =>
    intro st st' h hm
    exact (Except.ok.inj h) ▸ hm
  | succ f ih =>
    intro st st' h hm
    simp only [resolveLoop] at h
    cases hw : runWave g backend budget catchx emit st with
    | error e => rw [hw] at h; cases h
    | ok o =>
      cases o with
      | none =>
        rw [hw] at h
        exact (Except.ok.inj h) ▸ hm
      | some st₁ =>
        rw [hw] at h
        refine ih st₁ st' h ?_
        obtain ⟨hne, hst₁⟩ := runWave_ok_some hw
        rw [hst₁, emitProgress_metrics]
        refine fold_not_computed budget backend m hfail _ st ?_ hm
        intro p hp
        exact ⟨_, (mem_waveResults hp).2⟩

theorem resolveLoop_true_ok {V : Type} (g : ValidationGraph) (backend : Backend V)
    (budget : Nat) (emit : Bool) :
    ∀ (f : Nat) (st : ResolveState V),
      ∃ st', resolveLoop g backend budget true emit f st = .ok st' := by
  intro f
  induction f with
  | zero => intro st; exact ⟨st, rfl⟩
  | succ f ih =>
    intro st
    cases hw : runWave g backend budget true emit st with
    | error e => exact absurd hw (runWave_true_ok g backend budget emit st e)
    | ok o =>
      cases o with
      | none => exact ⟨st, by simp only [resolveLoop]; rw [hw]⟩
      | some st₁ =>
        obtain ⟨st', h⟩ := ih st₁
        exact ⟨st', by simp only [resolveLoop]; rw [hw]; exact h⟩

theorem fold_progress_log {V : Type} (budget : Nat) :
    ∀ (rs : List (MetricId × Except ExceptionInfo V)) (st : ResolveState V),
      ((rs.foldl (processResult budget) st)).progress_log = st.progress_log := by
  intro rs
  induction rs with
  | nil => intro st; rfl
  | cons p rs ih =>
    intro st
    rw [List.foldl_cons, ih, processResult_progress_log]

theorem emitProgress_log_false {V : Type} (g : ValidationGraph) (st : ResolveState V) :
    (emitProgress g false st).progress_log = st.progress_log := rfl

theorem emitProgress_log_true {V : Type} (g : ValidationGraph) (st : ResolveState V) :
    (emitProgress g true st).progress_log =
      st.progress_log ++ [((neededList g st).length, g.metric_ids.length)] := rfl

theorem resolveLoop_log_false {V : Type} (g : ValidationGraph) (backend : Backend V)
    (budget : Nat) (catchx : Bool) :
    ∀ (f : Nat) (st st' : ResolveState V),
      resolveLoop g backend budget catchx false f st = .ok st' →
      st'.progress_log = st.progress_log := by
  intro f
  induction f with
  | zero =>
    intro st st' h
    exact (Except.ok.inj h) ▸ rfl
  | succ f ih =>
    intro st st' h
    simp only [resolveLoop] at h
    cases hw : runWave g backend budget catchx false st with
    | error e => rw [hw] at h; cases h
    | ok o =>
      cases o with
      | none =>
        rw [hw] at h
        exact (Except.ok.inj h) ▸ rfl
      | some st₁ =>
        rw [hw] at h
        obtain ⟨hne, hst₁⟩ := runWave_ok_some hw
        rw [ih st₁ st' h, hst₁, emitProgress_log_false, fold_progress_log]

theorem resolveLoop_log_ne_nil {V : Type} (g : ValidationGraph) (backend : Backend V)
    (budget : Nat) (catchx emit : Bool) :
    ∀ (f : Nat) (st st' : ResolveState V),
      resolveLoop g backend budget catchx emit f st = .ok st' →
      st.progress_log ≠ [] → st'.progress_log ≠ [] := by
  intro f
  induction f with
  | zero =>
    intro st st' h hne
    exact (Except.ok.inj h) ▸ hne
  | succ f ih =>
    intro st st' h hne
    simp only [resolveLoop] at h
    cases hw : runWave g backend budget catchx emit st with
    | error e => rw [hw] at h; cases h
    | ok o =>
      cases o with
      | none =>
        rw [hw] at h
        exact (Except.ok.inj h) ▸ hne
      | some st₁ =>
        rw [hw] at h
        refine ih st₁ st' h ?_
        obtain ⟨_, hst₁⟩ := runWave_ok_some hw
        rw [hst₁]
        cases emit with
        | false =>
          rw [emitProgress_log_false, fold_progress_log]
          exact hne
        | true =>
          rw [emitProgress_log_true]
          simp

theorem firstFailure_none {V : Type} :
    ∀ (rs : List (MetricId × Except ExceptionInfo V)),
      (∀ p ∈ rs, ∃ v, p.2 = Except.ok v) → firstFailure rs = none := by
  intro rs
  induction rs with
  | nil => intro _; rfl
  | cons p rs ih =>
    intro h
    obtain ⟨v, hv⟩ := h p (List.mem_cons_self p rs)
    obtain ⟨m, r⟩ := p
    simp only at hv
    subst hv
    exact ih fun q hq => h q (List.mem_cons_of_mem _ hq)

theorem runWave_nf_ok {V : Type} {g : ValidationGraph} {backend : Backend V}
    {budget : Nat} {catchx emit : Bool} {st : ResolveState V}
    (hnf : ∀ m k, ∃ v, backend m k = Except.ok v) :
    ∀ e, runWave g backend budget catchx emit st ≠ .error e := by
  intro e h
  unfold runWave at h
  by_cases hr : readyList g st = []
  · rw [if_pos hr] at h; cases h
  · rw [if_neg hr] at h
    have hff : firstFailure (waveResults backend st (readyList g st)) = none := by
      apply firstFailure_none
      intro p hp
      obtain ⟨v, hv⟩ := hnf p.1 (assocGet 0 st.failure_counts p.1)
      exact ⟨v, (mem_waveResults hp).2.trans hv⟩
    rw [hff] at h
    cases catchx with
    | false => cases h
    | true => cases h

theorem fold_nf_fields {V : Type} (budget : Nat) (backend : Backend V)
    (hnf : ∀ m k, ∃ v, backend m k = Except.ok v) :
    ∀ (rs : List (MetricId × Except ExceptionInfo V)) (st : ResolveState V),
      (∀ p ∈ rs, ∃ k, p.2 = backend p.1 k) →
      (rs.foldl (processResult budget) st).aborted = st.aborted ∧
        (rs.foldl (processResult budget) st).aborted_metrics_info = st.aborted_metrics_info ∧
        (rs.foldl (processResult budget) st).failure_counts = st.failure_counts := by
  intro rs
  induction rs with
  | nil => intro st _; exact ⟨rfl, rfl, rfl⟩
  | cons p rs ih =>
    intro st hps
    obtain ⟨k, hk⟩ := hps p (List.mem_cons_self p rs)
    obtain ⟨v, hv⟩ := hnf p.1 k
    obtain ⟨m, r⟩ := p
    simp only at hk hv
    rw [hv] at hk
    subst hk
    rw [List.foldl_cons, processResult_ok]
    exact ih _ fun q hq => hps q (List.mem_cons_of_mem _ hq)

theorem resolveLoop_nf {V : Type} (g : ValidationGraph) (backend : Backend V)
    (budget : Nat) (catchx emit : Bool)
    (hnf : ∀ m k, ∃ v, backend m k = Except.ok v) :
    ∀ (f : Nat) (st : ResolveState V),
      ∃ st', resolveLoop g backend budget catchx emit f st = .ok st' ∧
        st'.aborted = st.aborted ∧
        st'.aborted_metrics_info = st.aborted_metrics_info ∧
        st'.failure_counts = st.failure_counts := by
  intro f
  induction f with
  | zero => intro st; exact ⟨st, rfl, rfl, rfl, rfl⟩
  | succ f ih =>
    intro st
    cases hw : runWave g backend budget catchx emit st with
    | error e => exact absurd hw (runWave_nf_ok hnf e)
    | ok o =>
      cases o with
      | none => exact ⟨st, by simp only [resolveLoop]; rw [hw], rfl, rfl, rfl⟩
      | some st₁ =>
        obtain ⟨st', h, ha, hr, hc⟩ := ih st₁
        obtain ⟨hne, hst₁⟩ := runWave_ok_some hw
        have hfields := fold_nf_fields budget backend hnf
          (waveResults backend st (readyList g st)) st
          (fun p hp => ⟨_, (mem_waveResults hp).2⟩)
        refine ⟨st', by simp only [resolveLoop]; rw [hw]; exact h, ?_, ?_, ?_⟩
        · rw [ha, hst₁, emitProgress_aborted]
          exact hfields.1
        · rw [hr, hst₁, emitProgress_aborted_metrics_info]
          exact hfields.2.1
        · rw [hc, hst₁, emitProgress_failure_counts]
          exact hfields.2.2

/-- A topological-order witness for a dependency graph: a list containing
every graph metric in which every prerequisite occurs strictly before its
dependent (this rules out cyclic prerequisite chains). -/
def IsTopoOrder (g : ValidationGraph) (ord : List MetricId) : Prop :=
  (∀ m ∈ g.metric_ids, m ∈ ord) ∧
  ∀ e ∈ g.edges, ∀ d, e.right = some d → ord.indexOf d < ord.indexOf e.left

theorem ready_empty_all_computed {V : Type} (g : ValidationGraph) (ord : List MetricId)
    (htopo : IsTopoOrder g ord) (st : ResolveState V)
    (hab : st.aborted = []) (hready : readyList g st = []) :
    ∀ m ∈ g.metric_ids, hasVal st.metrics m = true := by
  have key : ∀ n, ∀ m ∈ g.metric_ids, ord.indexOf m < n → hasVal st.metrics m = true := by
    intro n
    induction n with
    | zero => intro m _ h; exact absurd h (Nat.not_lt_zero _)
    | succ n ih =>
      intro m hm hidx
      by_contra hval
      have hval' : hasVal st.metrics m = false := by
        cases hb : hasVal st.metrics m
        · rfl
        · exact absurd hb hval
      have hnab : m ∉ st.aborted := by
        rw [hab]
        exact List.not_mem_nil m
      have hpm : prereqsMet g st.metrics m = false := by
        cases hp : prereqsMet g st.metrics m
        · rfl
        · exact absurd ((mem_readyList_iff g st m).mpr ⟨hm, hval', hnab, hp⟩)
            (by rw [hready]; exact List.not_mem_nil m)
      have hnotall : ¬ (∀ e ∈ g.edges, e.left = m → ∀ d, e.right = some d →
          hasVal st.metrics d = true) := by
        intro hall
        rw [(prereqsMet_iff g st.metrics m).mpr hall] at hpm
        cases hpm
      push_neg at hnotall
      obtain ⟨e, he, hl, d, hd, hdval⟩ := hnotall
      have hdm : d ∈ g.metric_ids := mem_metric_ids_of_edge_right he hd
      have hdidx : ord.indexOf d < ord.indexOf m := hl ▸ htopo.2 e he d hd
      exact hdval (ih d hdm (by omega))
  intro m hm
  exact key (ord.indexOf m + 1) m hm (Nat.lt_succ_self _)

theorem contrib_le_budget_succ {V : Type} (budget : Nat) (st : ResolveState V) (x : MetricId) :
    contrib budget st x ≤ budget + 1 := by
  unfold contrib
  split
  · omega
  · omega

theorem stateMeasure_lt_fuel {V : Type} (g : ValidationGraph) (budget : Nat)
    (st : ResolveState V) :
    stateMeasure g budget st < (budget + 1) * g.metric_ids.length + 1 := by
  have h := sum_map_le_mul g.metric_ids (contrib budget st) (budget + 1)
    (fun x _ => contrib_le_budget_succ budget st x)
  unfold stateMeasure
  rw [Nat.mul_comm (budget + 1) g.metric_ids.length]
  omega

theorem resolve_ok_inv {V : Type} {g : ValidationGraph} {backend : Backend V}
    {seed : MetricValues V} {budget : Nat} {catchx spb : Bool} {res : ResolveResult V}
    (hres : resolve_validation_graph g backend seed budget catchx spb = .ok res) :
    ∃ st', resolveLoop g backend budget catchx
        (!(!spb || decide (g.edges.length < 3)))
        ((budget + 1) * g.metric_ids.length + 1) (initState seed) = .ok st' ∧
      res.metrics = st'.metrics ∧
      res.aborted_metrics_info = st'.aborted_metrics_info ∧
      res.progress_disabled = (!spb || decide (g.edges.length < 3)) ∧
      res.progress_log = st'.progress_log := by
  simp only [resolve_validation_graph] at hres
  cases hloop : resolveLoop g backend budget catchx
      (!(!spb || decide (g.edges.length < 3)))
      ((budget + 1) * g.metric_ids.length + 1) (initState seed) with
  | error e => rw [hloop] at hres; cases hres
  | ok st' =>
    rw [hloop] at hres
    have := Except.ok.inj hres
    exact ⟨st', rfl, by rw [← this], by rw [← this], by rw [← this], by rw [← this]⟩

/-- C1 counterexample: on the cyclic two-edge graph (a requires b, b
requires a), with a backend that returns a value for every submitted
metric, resolution stalls immediately: it returns with an empty aborted
report but the computed-values mapping holds no value for metric a even
though a is one of the graph's distinct metrics. -/
theorem claim1_counterexample :
    ∃ res, resolve_validation_graph (V := Nat)
        ⟨[⟨⟨"a", "d", "v"⟩, some ⟨"b", "d", "v"⟩⟩, ⟨⟨"b", "d", "v"⟩, some ⟨"a", "d", "v"⟩⟩]⟩
        (fun _ _ => Except.ok 0) [] 3 true true = .ok res ∧
      (⟨"a", "d", "v"⟩ : MetricId) ∈ (ValidationGraph.mk
        [⟨⟨"a", "d", "v"⟩, some ⟨"b", "d", "v"⟩⟩,
          ⟨⟨"b", "d", "v"⟩, some ⟨"a", "d", "v"⟩⟩]).metric_ids ∧
      hasVal res.metrics ⟨"a", "d", "v"⟩ = false ∧
      res.aborted_metrics_info = [] := by
  refine ⟨⟨[], [], true, []⟩, rfl, by decide, rfl, rfl⟩

/-- C1 (amended): for every dependency graph whose prerequisite relation
admits a topological order (no cyclic prerequisite chains) and every
backend that returns a value for each submitted metric, resolution
returns a computed-values mapping containing a value for every one of the
graph's distinct metrics and an empty aborted report. -/
theorem claim1_resolve_complete {V : Type} (g : ValidationGraph) (backend : Backend V)
    (seed : MetricValues V) (budget : Nat) (catchx spb : Bool) (ord : List MetricId)
    (htopo : IsTopoOrder g ord)
    (hnf : ∀ m k, ∃ v, backend m k = Except.ok v) :
    ∃ res, resolve_validation_graph g backend seed budget catchx spb = .ok res ∧
      (∀ m ∈ g.metric_ids, hasVal res.metrics m = true) ∧
      res.aborted_metrics_info = [] := by
  obtain ⟨st', hloop, ha, hrep, hc⟩ := resolveLoop_nf g backend budget catchx
    (!(!spb || decide (g.edges.length < 3))) hnf
    ((budget + 1) * g.metric_ids.length + 1) (initState seed)
  refine ⟨⟨st'.metrics, st'.aborted_metrics_info,
    (!spb || decide (g.edges.length < 3)), st'.progress_log⟩, ?_, ?_, ?_⟩
  · simp only [resolve_validation_graph]
    rw [hloop]
  · have hcle : ∀ x, x ∉ (initState seed).aborted →
        assocGet 0 (initState seed).failure_counts x ≤ budget := by
      intro x _
      exact Nat.zero_le budget
    have hready : readyList g st' = [] :=
      resolveLoop_ready_empty g backend budget catchx _
        ((budget + 1) * g.metric_ids.length + 1) (initState seed) st' hcle
        (stateMeasure_lt_fuel g budget (initState seed)) hloop
    exact ready_empty_all_computed g ord htopo st' (by rw [ha]; rfl) hready
  · rw [hrep]
    rfl

/-- C1 witness: the two-metric chain a requires b with an always-ok
backend resolves both metrics with an empty aborted report. -/
theorem claim1_resolve_complete_witness :
    ∃ res, resolve_validation_graph (V := Nat)
        ⟨[⟨⟨"b", "d", "v"⟩, none⟩, ⟨⟨"a", "d", "v"⟩, some ⟨"b", "d", "v"⟩⟩]⟩
        (fun _ _ => Except.ok 0) [] 3 true true = .ok res ∧
      (∀ m ∈ (ValidationGraph.mk
        [⟨⟨"b", "d", "v"⟩, none⟩,
          ⟨⟨"a", "d", "v"⟩, some ⟨"b", "d", "v"⟩⟩]).metric_ids,
        hasVal res.metrics m = true) ∧
      res.aborted_metrics_info = [] :=
  claim1_resolve_complete
    ⟨[⟨⟨"b", "d", "v"⟩, none⟩, ⟨⟨"a", "d", "v"⟩, some ⟨"b", "d", "v"⟩⟩]⟩
    (fun _ _ => Except.ok 0) [] 3 true true
    [⟨"b", "d", "v"⟩, ⟨"a", "d", "v"⟩] (by unfold IsTopoOrder; decide) (fun m k => ⟨0, rfl⟩)

/-- C4: in a catch-failures resolution whose aborted report contains a
metric D, any metric M with a prerequisite edge on D that was not seeded
by the caller ends up in neither the computed-values mapping nor the
aborted report. -/
theorem claim4_blocked_metric_unresolved {V : Type} (g : ValidationGraph)
    (backend : Backend V) (seed : MetricValues V) (budget : Nat) (spb : Bool)
    (res : ResolveResult V) (e : MetricEdge) (M D : MetricId)
    (hres : resolve_validation_graph g backend seed budget true spb = .ok res)
    (he : e ∈ g.edges) (heL : e.left = M) (heR : e.right = some D)
    (hD : D ∈ res.aborted_metrics_info.map AbortedEntry.descriptor)
    (hMseed : hasVal seed M = false) :
    hasVal res.metrics M = false ∧
      M ∉ res.aborted_metrics_info.map AbortedEntry.descriptor := by
  obtain ⟨st', hloop, hm, hr, _, _⟩ := resolve_ok_inv hres
  have hinv : ResolveInv g budget seed st' :=
    resolveLoop_preserves_inv g backend budget true _ seed _ _ st' hloop
      (initState_inv g budget seed)
  rw [hr, hinv.report_desc] at hD
  have hDnc : hasVal st'.metrics D = false := hinv.aborted_not_computed D hD
  constructor
  · rw [hm]
    cases hMv : hasVal st'.metrics M with
    | false => rfl
    | true =>
      exfalso
      have hMv' : hasVal st'.metrics e.left = true := by rw [heL]; exact hMv
      rcases hinv.computed_prereqs e he hMv' with hs | hall
      · rw [heL] at hs
        rw [hs] at hMseed
        cases hMseed
      · have := hall D heR
        rw [this] at hDnc
        cases hDnc
  · intro hM
    rw [hr, hinv.report_desc] at hM
    have := hinv.aborted_prereqs M hM e he heL D heR
    rw [this] at hDnc
    cases hDnc

/-- Exception record used by concrete failing backends in witnesses. -/
def failRecord : ExceptionInfo := ⟨"boom", none, true⟩

/-- Backend that fails on metric b and succeeds elsewhere. -/
def failOnB : Backend Nat := fun m _ =>
  if m = ⟨"b", "d", "v"⟩ then Except.error failRecord else Except.ok 0

/-- C4 witness: with metric b failing on every attempt and metric a
requiring b, the resolution aborts b and leaves a in neither the
computed-values mapping nor the aborted report. -/
theorem claim4_blocked_metric_unresolved_witness :
    hasVal (ResolveResult.metrics (V := Nat)
        ⟨[], [⟨⟨"b", "d", "v"⟩, 3, [failRecord]⟩], true, []⟩) ⟨"a", "d", "v"⟩ = false ∧
      (⟨"a", "d", "v"⟩ : MetricId) ∉ (ResolveResult.aborted_metrics_info (V := Nat)
        ⟨[], [⟨⟨"b", "d", "v"⟩, 3, [failRecord]⟩], true, []⟩).map AbortedEntry.descriptor :=
  claim4_blocked_metric_unresolved
    ⟨[⟨⟨"b", "d", "v"⟩, none⟩, ⟨⟨"a", "d", "v"⟩, some ⟨"b", "d", "v"⟩⟩]⟩
    failOnB [] 3 false ⟨[], [⟨⟨"b", "d", "v"⟩, 3, [failRecord]⟩], true, []⟩
    ⟨⟨"a", "d", "v"⟩, some ⟨"b", "d", "v"⟩⟩ ⟨"a", "d", "v"⟩ ⟨"b", "d", "v"⟩
    rfl (by decide) rfl rfl (by decide) rfl

/-- C2: a metric whose backend computation fails on every attempt ends,
under catch-failures, with exactly one aborted-report entry for it,
provided the resolution computed its prerequisites (so the metric was
actually submitted rather than permanently blocked — leaf metrics with
only terminal edges satisfy this vacuously); every report entry carries
failure count equal to the retry budget and a non-empty set of exception
records; and an aborted metric is excluded from every readiness check. -/
theorem claim2_always_failing_aborted {V : Type} (g : ValidationGraph) (backend : Backend V)
    (seed : MetricValues V) (budget : Nat) (spb : Bool) (m : MetricId)
    (res : ResolveResult V)
    (hres : resolve_validation_graph g backend seed budget true spb = .ok res)
    (hb : 1 ≤ budget) (hm : m ∈ g.metric_ids)
    (hprereq : ∀ e ∈ g.edges, e.left = m → ∀ d, e.right = some d →
      hasVal res.metrics d = true)
    (hfail : ∀ k v, backend m k ≠ Except.ok v)
    (hseed : hasVal seed m = false) :
    (res.aborted_metrics_info.map AbortedEntry.descriptor).count m = 1 ∧
      (∀ en ∈ res.aborted_metrics_info,
        en.num_failures = budget ∧ en.exception_info ≠ []) ∧
      (∀ st : ResolveState V, m ∈ st.aborted → m ∉ readyList g st) := by
  obtain ⟨st', hloop, hmet, hrep, _, _⟩ := resolve_ok_inv hres
  have hinv : ResolveInv g budget seed st' :=
    resolveLoop_preserves_inv g backend budget true _ seed _ _ st' hloop
      (initState_inv g budget seed)
  have hcle : ∀ x, x ∉ (initState seed).aborted →
      assocGet 0 (initState seed).failure_counts x ≤ budget := fun x _ => Nat.zero_le budget
  have hready : readyList g st' = [] :=
    resolveLoop_ready_empty g backend budget true _ _ (initState seed) st' hcle
      (stateMeasure_lt_fuel g budget (initState seed)) hloop
  have hnc : hasVal st'.metrics m = false :=
    resolveLoop_not_computed g backend budget true _ m hfail _ (initState seed) st' hloop hseed
  have hpm : prereqsMet g st'.metrics m = true := by
    apply (prereqsMet_iff g st'.metrics m).mpr
    intro e he hl d hd
    have hd' := hprereq e he hl d hd
    rw [hmet] at hd'
    exact hd'
  have hmab : m ∈ st'.aborted := by
    by_contra hnab
    have : m ∈ readyList g st' := (mem_readyList_iff g st' m).mpr ⟨hm, hnc, hnab, hpm⟩
    rw [hready] at this
    cases this
  refine ⟨?_, ?_, ?_⟩
  · rw [hrep, hinv.report_desc]
    exact List.count_eq_one_of_mem hinv.aborted_nodup hmab
  · intro en hen
    rw [hrep] at hen
    exact hinv.report_fields hb en hen
  · intro st hst hmem
    exact ((mem_readyList_iff g st m).mp hmem).2.2.1 hst

/-- Backend that fails on metric a and succeeds elsewhere. -/
def failOnA : Backend Nat := fun m _ =>
  if m = ⟨"a", "d", "v"⟩ then Except.error failRecord else Except.ok 0

/-- C2 witness: the non-leaf metric a requires the computable metric b;
the backend computes b and fails on a on every attempt; with the default
retry budget of 3 the run computes b, aborts a with a single report entry
of failure count 3 and a non-empty exception set, and aborted metrics are
excluded from readiness. -/
theorem claim2_always_failing_aborted_witness :
    ((ResolveResult.aborted_metrics_info (V := Nat)
        ⟨[(⟨"b", "d", "v"⟩, 0)], [⟨⟨"a", "d", "v"⟩, 3, [failRecord]⟩], true, []⟩).map
        AbortedEntry.descriptor).count ⟨"a", "d", "v"⟩ = 1 ∧
      (∀ en ∈ ResolveResult.aborted_metrics_info (V := Nat)
          ⟨[(⟨"b", "d", "v"⟩, 0)], [⟨⟨"a", "d", "v"⟩, 3, [failRecord]⟩], true, []⟩,
        en.num_failures = MAX_METRIC_COMPUTATION_RETRIES ∧ en.exception_info ≠ []) ∧
      (∀ st : ResolveState Nat, (⟨"a", "d", "v"⟩ : MetricId) ∈ st.aborted →
        (⟨"a", "d", "v"⟩ : MetricId) ∉ readyList
          ⟨[⟨⟨"b", "d", "v"⟩, none⟩, ⟨⟨"a", "d", "v"⟩, some ⟨"b", "d", "v"⟩⟩]⟩ st) :=
  claim2_always_failing_aborted
    ⟨[⟨⟨"b", "d", "v"⟩, none⟩, ⟨⟨"a", "d", "v"⟩, some ⟨"b", "d", "v"⟩⟩]⟩
    failOnA [] MAX_METRIC_COMPUTATION_RETRIES false ⟨"a", "d", "v"⟩
    ⟨[(⟨"b", "d", "v"⟩, 0)], [⟨⟨"a", "d", "v"⟩, 3, [failRecord]⟩], true, []⟩
    rfl (by decide) (by decide) (by decide)
    (by intro k v h; simp [failOnA] at h) rfl

/-- C3: with catch-failures false, a wave whose backend results contain an
exception record makes the resolution surface the first such record to
the caller at once: the whole resolve call returns that error (so no
aborted report is produced and the failed metric is not retried); the
second conjunct states this for the wave of any intermediate state. -/
theorem claim3_first_failure_surfaces {V : Type} (g : ValidationGraph) (backend : Backend V)
    (seed : MetricValues V) (budget : Nat) (spb : Bool) (e : ExceptionInfo)
    (hf : firstFailure (waveResults backend (initState seed)
        (readyList g (initState seed))) = some e) :
    resolve_validation_graph g backend seed budget false spb = .error e ∧
      ∀ (f : Nat) (em : Bool) (st : ResolveState V) (e' : ExceptionInfo),
        firstFailure (waveResults backend st (readyList g st)) = some e' →
        resolveLoop g backend budget false em (f + 1) st = .error e' := by
  have key : ∀ (f : Nat) (em : Bool) (st : ResolveState V) (e' : ExceptionInfo),
      firstFailure (waveResults backend st (readyList g st)) = some e' →
      resolveLoop g backend budget false em (f + 1) st = .error e' := by
    intro f em st e' hf'
    have hready : readyList g st ≠ [] := by
      intro h0
      rw [h0] at hf'
      simp [waveResults, firstFailure] at hf'
    have hw : runWave g backend budget false em st = .error e' := by
      unfold runWave
      rw [if_neg hready, hf']
    simp only [resolveLoop]
    rw [hw]
  constructor
  · simp only [resolve_validation_graph, resolveLoop]
    rw [show runWave g backend budget false (!(!spb || decide (g.edges.length < 3)))
        (initState seed) = .error e by
      unfold runWave
      rw [if_neg (by
        intro h0
        rw [h0] at hf
        simp [waveResults, firstFailure] at hf), hf]]
  · exact key

/-- C3 witness: a single always-failing metric under catch-failures false
surfaces the exception record of the first wave. -/
theorem claim3_first_failure_surfaces_witness :
    resolve_validation_graph (V := Nat) ⟨[⟨⟨"b", "d", "v"⟩, none⟩]⟩
        failOnB [] 3 false true = .error failRecord ∧
      ∀ (f : Nat) (em : Bool) (st : ResolveState Nat) (e' : ExceptionInfo),
        firstFailure (waveResults failOnB st
          (readyList ⟨[⟨⟨"b", "d", "v"⟩, none⟩]⟩ st)) = some e' →
        resolveLoop ⟨[⟨⟨"b", "d", "v"⟩, none⟩]⟩ failOnB 3 false em (f + 1) st =
          .error e' :=
  claim3_first_failure_surfaces ⟨[⟨⟨"b", "d", "v"⟩, none⟩]⟩ failOnB [] 3 true
    failRecord rfl

/-- Three-metric graph with three terminal edges, used for the progress
reporting claim. -/
def threeEdgeGraph : ValidationGraph :=
  ⟨[⟨⟨"a", "d", "v"⟩, none⟩, ⟨⟨"b", "d", "v"⟩, none⟩, ⟨⟨"c", "d", "v"⟩, none⟩]⟩

/-- C9 counterexample: a resolution over a graph with exactly 3 edges and
3 tracked metrics, with progress enabled by configuration, emits progress
(the disable flag is false and a report is sent after the wave), whereas
the claim says reporting is suppressed whenever the total is at most 3. -/
theorem claim9_counterexample :
    ∃ res, resolve_validation_graph (V := Nat) threeEdgeGraph
        (fun _ _ => Except.ok 0) [] 3 true true = .ok res ∧
      threeEdgeGraph.metric_ids.length = 3 ∧
      threeEdgeGraph.edges.length = 3 ∧
      res.progress_disabled = false ∧
      res.progress_log ≠ [] := by
  refine ⟨⟨[(⟨"a", "d", "v"⟩, 0), (⟨"b", "d", "v"⟩, 0), (⟨"c", "d", "v"⟩, 0)],
    [], false, [(0, 3)]⟩, rfl, rfl, rfl, rfl, by simp⟩

/-- C9 (amended): the resolver reports (remaining needed, total) to the
progress sink after each wave, and reporting is suppressed exactly when
progress is explicitly disabled by configuration or the graph has fewer
than 3 edges; otherwise, whenever at least one wave runs, it is
emitted. -/
theorem claim9_progress_reporting {V : Type} (g : ValidationGraph) (backend : Backend V)
    (seed : MetricValues V) (budget : Nat) (catchx spb : Bool) (res : ResolveResult V)
    (hres : resolve_validation_graph g backend seed budget catchx spb = .ok res) :
    (res.progress_disabled = true ↔ (spb = false ∨ g.edges.length < 3)) ∧
      (res.progress_disabled = true → res.progress_log = []) ∧
      (res.progress_disabled = false → readyList g (initState seed) ≠ [] →
        res.progress_log ≠ []) := by
  obtain ⟨st', hloop, _, _, hdis, hlog⟩ := resolve_ok_inv hres
  refine ⟨?_, ?_, ?_⟩
  · rw [hdis]
    constructor
    · intro h
      cases hspb : spb
      · exact Or.inl rfl
      · rw [hspb] at h
        refine Or.inr (of_decide_eq_true ?_)
        simpa using h
    · intro h
      rcases h with h | h
      · rw [h]
        rfl
      · rw [decide_eq_true h]
        simp
  · intro h
    rw [hdis] at h
    have hemit : (!(!spb || decide (g.edges.length < 3))) = false := by
      rw [h]
      rfl
    rw [hemit] at hloop
    rw [hlog, resolveLoop_log_false g backend budget catchx _ (initState seed) st' hloop]
    rfl
  · intro hdisf hready
    rw [hdis] at hdisf
    have hemit : (!(!spb || decide (g.edges.length < 3))) = true := by
      rw [hdisf]
      rfl
    rw [hemit] at hloop
    rw [hlog]
    simp only [resolveLoop] at hloop
    cases hw : runWave g backend budget catchx true (initState seed) with
    | error e => rw [hw] at hloop; cases hloop
    | ok o =>
      cases o with
      | none => exact absurd (runWave_ok_none hw) hready
      | some st₁ =>
        rw [hw] at hloop
        refine resolveLoop_log_ne_nil g backend budget catchx true _ st₁ st' hloop ?_
        obtain ⟨_, hst₁⟩ := runWave_ok_some hw
        rw [hst₁, emitProgress_log_true, fold_progress_log]
        simp

/-- C9 witness: on the three-edge graph with progress enabled, the disable
flag is false and the progress log is non-empty after the single wave. -/
theorem claim9_progress_reporting_witness :
    ((ResolveResult.progress_disabled (V := Nat)
        ⟨[(⟨"a", "d", "v"⟩, 0), (⟨"b", "d", "v"⟩, 0), (⟨"c", "d", "v"⟩, 0)],
          [], false, [(0, 3)]⟩ = true) ↔
      (true = false ∨ threeEdgeGraph.edges.length < 3)) ∧
      (ResolveResult.progress_disabled (V := Nat)
        ⟨[(⟨"a", "d", "v"⟩, 0), (⟨"b", "d", "v"⟩, 0), (⟨"c", "d", "v"⟩, 0)],
          [], false, [(0, 3)]⟩ = true →
        ResolveResult.progress_log (V := Nat)
          ⟨[(⟨"a", "d", "v"⟩, 0), (⟨"b", "d", "v"⟩, 0), (⟨"c", "d", "v"⟩, 0)],
            [], false, [(0, 3)]⟩ = []) ∧
      (ResolveResult.progress_disabled (V := Nat)
        ⟨[(⟨"a", "d", "v"⟩, 0), (⟨"b", "d", "v"⟩, 0), (⟨"c", "d", "v"⟩, 0)],
          [], false, [(0, 3)]⟩ = false →
        readyList threeEdgeGraph (initState ([] : MetricValues Nat)) ≠ [] →
        ResolveResult.progress_log (V := Nat)
          ⟨[(⟨"a", "d", "v"⟩, 0), (⟨"b", "d", "v"⟩, 0), (⟨"c", "d", "v"⟩, 0)],
            [], false, [(0, 3)]⟩ ≠ []) :=
  claim9_progress_reporting threeEdgeGraph (fun _ _ => Except.ok 0) [] 3 true true
    ⟨[(⟨"a", "d", "v"⟩, 0), (⟨"b", "d", "v"⟩, 0), (⟨"c", "d", "v"⟩, 0)],
      [], false, [(0, 3)]⟩ rfl

/-- Modelled from the spec: a Scoped View — the originating check's
configuration plus a private dependency graph
(ExpectationValidationGraph). -/
structure ExpectationValidationGraph where
  configuration : String
  graph : ValidationGraph

/-- Modelled from the spec: merge adds another graph's edges into this
view's own edge set, with the same dedup-by-identity rule
(ExpectationValidationGraph.update). -/
def ExpectationValidationGraph.update (v : ExpectationValidationGraph)
    (g : ValidationGraph) : ExpectationValidationGraph :=
  ⟨v.configuration, g.edges.foldl ValidationGraph.add v.graph⟩

/-- Modelled from the spec: failures_for_self
(ExpectationValidationGraph.get_exception_info) — filters the resolver's
global per-metric failure records down to the metric identities present
in this view's own edge set, unions their exception records and returns
them deduplicated. -/
def ExpectationValidationGraph.get_exception_info (v : ExpectationValidationGraph)
    (metric_info : List (MetricId × List ExceptionInfo)) : List ExceptionInfo :=
  ((metric_info.filter (fun p => decide (p.1 ∈ v.graph.metric_ids))).flatMap
    (fun p => p.2)).dedup

/-- C8: a Scoped View's failure filter returns exactly the deduplicated
union of the exception records of metric identities present in its own
edge set — an exception record is returned iff some record list of an
in-view metric contains it — and never a record keyed only by metrics
outside the view. -/
theorem claim8_failures_for_self (v : ExpectationValidationGraph)
    (metric_info : List (MetricId × List ExceptionInfo)) (x : ExceptionInfo) :
    (x ∈ v.get_exception_info metric_info ↔
      ∃ m l, (m, l) ∈ metric_info ∧ m ∈ v.graph.metric_ids ∧ x ∈ l) ∧
    (v.get_exception_info metric_info).Nodup := by
  constructor
  · unfold ExpectationValidationGraph.get_exception_info
    rw [List.mem_dedup, List.mem_flatMap]
    constructor
    · rintro ⟨p, hp, hx⟩
      have hfp := List.mem_filter.mp hp
      exact ⟨p.1, p.2, hfp.1, of_decide_eq_true hfp.2, hx⟩
    · rintro ⟨m, l, hml, hmem, hx⟩
      exact ⟨(m, l), List.mem_filter.mpr ⟨hml, decide_eq_true hmem⟩, hx⟩
  · exact List.nodup_dedup _

/-- Python values as they matter to get_batch_request: a string, or a
non-string value carrying its printed form. -/
inductive PyValue where
  | str (s : String)
  | intVal (n : Int)
  | noneVal
deriving DecidableEq, Repr

def PyValue.isStr : PyValue → Bool
  | .str _ => true
  | _ => false

def PyValue.printed : PyValue → String
  | .str s => s
  | .intVal n => toString n
  | .noneVal => "None"

/-- Compile-time facts of the asset's compiled regex: the number of
capture groups (re.Pattern.groups) and the name-to-group-id mapping
(re.Pattern.groupindex). -/
structure RegexInfo where
  groups : Nat
  groupindex : List (String × Nat)
deriving Repr

/-- FilesystemDataAsset, restricted to the state that
get_batch_request consults. -/
structure FilesystemDataAsset where
  name : String
  regex : RegexInfo
deriving Repr

abbrev BatchRequestOptions : Type := List (String × PyValue)

/-- FilesystemDataAsset._option_name_to_regex_group_id: the named groups
of groupindex, then a synthesized "batch_request_param_<i>" option name
for every capture group id from 1 to groups that carries no name. -/
def option_name_to_regex_group_id (a : FilesystemDataAsset) : List (String × Nat) :=
  a.regex.groupindex ++
    ((List.range a.regex.groups).map (· + 1)).filterMap (fun i =>
      if i ∈ a.regex.groupindex.map Prod.snd then none
      else some ("batch_request_param_" ++ toString i, i))

/-- The InvalidBatchRequestError message of get_batch_request (the
quoting punctuation around the option name is elided). -/
def invalid_option_message (option : String) (v : PyValue) : String :=
  "All regex matching options must be strings. The value of " ++ option ++
    " is not a string: " ++ v.printed

/-- FilesystemDataAsset.get_batch_request: every option whose key names a
regex group of the asset must carry a string value; otherwise an
InvalidBatchRequestError naming the first offending option is raised; if
the check passes, the request is delegated to the parent implementation
(modelled as returning the options passed through). -/
def get_batch_request (a : FilesystemDataAsset) :
    Option BatchRequestOptions → Except String (Option BatchRequestOptions)
  | none => .ok none
  | some opts =>
    match opts.find? (fun p =>
        decide (p.1 ∈ (option_name_to_regex_group_id a).map Prod.fst) && !p.2.isStr) with
    | some p => .error (invalid_option_message p.1 p.2)
    | none => .ok (some opts)

/-- C10: if some option key names a regex group of the asset and its value
is not a string, get_batch_request raises InvalidBatchRequestError naming
an offending option; if every regex-group option value is a string, no
error is raised and the request is delegated to the parent. -/
theorem claim10_get_batch_request (a : FilesystemDataAsset)
    (options : Option BatchRequestOptions) :
    ((∃ opts, options = some opts ∧ ∃ p ∈ opts,
        p.1 ∈ (option_name_to_regex_group_id a).map Prod.fst ∧ p.2.isStr = false) →
      ∃ q : String × PyValue,
        get_batch_request a options = .error (invalid_option_message q.1 q.2) ∧
        q.1 ∈ (option_name_to_regex_group_id a).map Prod.fst ∧ q.2.isStr = false) ∧
    ((∀ opts, options = some opts → ∀ p ∈ opts,
        p.1 ∈ (option_name_to_regex_group_id a).map Prod.fst → p.2.isStr = true) →
      get_batch_request a options = .ok options) := by
  constructor
  · rintro ⟨opts, rfl, p, hp, hname, hstr⟩
    cases hfind : opts.find? (fun p =>
        decide (p.1 ∈ (option_name_to_regex_group_id a).map Prod.fst) && !p.2.isStr) with
    | none =>
      exfalso
      apply List.find?_eq_none.mp hfind p hp
      rw [decide_eq_true hname, hstr]
      rfl
    | some q =>
      have hq := List.find?_some hfind
      rw [Bool.and_eq_true, Bool.not_eq_true'] at hq
      refine ⟨q, ?_, of_decide_eq_true hq.1, hq.2⟩
      unfold get_batch_request
      dsimp only
      rw [hfind]
  · intro hall
    cases options with
    | none => rfl
    | some opts =>
      have hnone : opts.find? (fun p =>
          decide (p.1 ∈ (option_name_to_regex_group_id a).map Prod.fst) && !p.2.isStr) =
          none := by
        rw [List.find?_eq_none]
        intro p hp hpred
        rw [Bool.and_eq_true, Bool.not_eq_true'] at hpred
        have := hall opts rfl p hp (of_decide_eq_true hpred.1)
        rw [this] at hpred
        cases hpred.2
      unfold get_batch_request
      dsimp only
      rw [hnone]

/-- Asset with a single named capture group "year", used to witness the
get_batch_request claim. -/
def sampleAsset : FilesystemDataAsset := ⟨"csv", ⟨1, [("year", 1)]⟩⟩

/-- C10 witness: a non-string value for the regex-group option "year"
raises the invalid-option error, and a string value delegates. -/
theorem claim10_get_batch_request_witness :
    (∃ q : String × PyValue,
      get_batch_request sampleAsset (some [("year", PyValue.intVal 2020)]) =
        .error (invalid_option_message q.1 q.2) ∧
      q.1 ∈ (option_name_to_regex_group_id sampleAsset).map Prod.fst ∧
      q.2.isStr = false) ∧
    get_batch_request sampleAsset (some [("year", PyValue.str "2020")]) =
      .ok (some [("year", PyValue.str "2020")]) :=
  ⟨(claim10_get_batch_request sampleAsset (some [("year", PyValue.intVal 2020)])).1
      ⟨[("year", PyValue.intVal 2020)], rfl, ("year", PyValue.intVal 2020),
        by decide, by decide, rfl⟩,
    (claim10_get_batch_request sampleAsset (some [("year", PyValue.str "2020")])).2
      (by
        intro opts h p hp hmem
        obtain rfl := Option.some.inj h
        rw [List.mem_singleton] at hp
        subst hp
        rfl)⟩
